import Mathlib

/-!
Verification of the concurrent execution layer of the dork-parser repository.

The development shallowly embeds the relevant program units:

* `worker/internal/proxy/pool.go` — the proxy pool (Go).  The `Proxy` record
  and its methods live in a file of the same package that is not part of the
  source snapshot; those definitions are modelled from the specification and
  are marked as such in their doc comments.
* `worker/internal/engine/engine.go` — the Google engine adapter (Go).
* `src/orchestrator/taskQueue.ts` — the priority task queue (TypeScript).
* `src/filter/index.ts` — the filter pipeline, the URL deduplicators and the
  scheduler (TypeScript; the file concatenates several modules).

Conventions of the embedding:

* Go `time.Time` / `time.Duration` and JavaScript timestamps are rational
  numbers (seconds).  Floating point arithmetic of both languages is modelled
  over `ℚ`; the modelled computations use only +, *, /, comparisons.
* Go maps that are only read through key lookup are association lists; Go
  slices of pointers into the map are lists of keys (the map is the heap).
* JavaScript `Set` objects are lists in insertion order, `Record` objects are
  association lists.
* The Bloom filter of the `bloom-filters` npm package is modelled abstractly:
  the family of hash functions is a parameter `h : String → List ℕ`, the
  filter state is the list of set bit indices.  Every theorem about it holds
  for an arbitrary hash family.
* String utilities are implemented by structural recursion over `List Char`
  so that all concrete instances reduce inside the kernel.
-/

namespace DorkParser

/-! ## String utilities (models of JS / Go string primitives, ASCII fragment) -/

/-- Model of JS `toLowerCase` / Go `strings.ToLower` on ASCII data. -/
def strToLower (s : String) : String :=
  ⟨s.data.map Char.toLower⟩

/-- First index at which `pat` occurs in `s`, scanning left to right. -/
def indexOfList (s pat : List Char) : Option Nat :=
  match s with
  | [] => if pat.isEmpty then some 0 else none
  | _ :: t =>
    if pat.isPrefixOf s then some 0
    else (indexOfList t pat).map (· + 1)

/-- Model of JS `String.prototype.includes` / Go `strings.Contains`. -/
def containsSubstr (s pat : String) : Bool :=
  (indexOfList s.data pat.data).isSome

/-- Index of the first occurrence of substring `pat` in `s`. -/
def indexOfSubstr (s pat : String) : Option Nat :=
  indexOfList s.data pat.data

/-- Split a character list at every occurrence of the character `c`. -/
def splitOnChar (c : Char) : List Char → List (List Char)
  | [] => [[]]
  | x :: t =>
    if x = c then [] :: splitOnChar c t
    else
      match splitOnChar c t with
      | [] => [[x]]
      | g :: gs => (x :: g) :: gs

/-- Model of JS `"dom".split('.')` and of TS `domain.split('.')`. -/
def splitDots (s : String) : List String :=
  (splitOnChar '.' s.data).map List.asString

/-- The last `n` elements of a list: model of JS `Array.prototype.slice(-n)`. -/
def lastN (n : Nat) (l : List α) : List α :=
  l.drop (l.length - n)

/-- Model of Go `strings.HasSuffix` / JS `String.prototype.endsWith`. -/
def strEndsWith (s suf : String) : Bool :=
  suf.data.isSuffixOf s.data

/-- Replace, in `s`, every occurrence of `pat` (non-empty) by `rep`:
model of Go `strings.ReplaceAll` / JS `replaceAll`.  The `fuel` argument
makes the recursion structural; it is instantiated with the length of the
scanned list, which every step decreases by at least one. -/
def replaceAllAux (pat rep : List Char) : Nat → List Char → List Char
  | _, [] => []
  | 0, s => s
  | fuel + 1, x :: t =>
    if pat.isPrefixOf (x :: t) ∧ pat ≠ [] then
      rep ++ replaceAllAux pat rep fuel (List.drop (pat.length - 1) t)
    else
      x :: replaceAllAux pat rep fuel t

/-- String-level wrapper of `replaceAllAux`. -/
def replaceAll (s pat rep : String) : String :=
  ⟨replaceAllAux pat.data rep.data s.data.length s.data⟩

/-- Lexicographic comparison of character lists by code point: the order
the default comparator of JS `Array.prototype.sort()` applies (UTF-16
code-unit order, which agrees with code-point order on these inputs). -/
def listCharLt : List Char → List Char → Bool
  | [], [] => false
  | [], _ :: _ => true
  | _ :: _, [] => false
  | a :: as, b :: bs =>
    if a.toNat < b.toNat then true
    else if b.toNat < a.toNat then false
    else listCharLt as bs

/-- String comparison in JS default-sort order. -/
def strJsLt (a b : String) : Bool :=
  listCharLt a.data b.data

/-- Insertion of a string into a sorted list, keeping equal keys in input
order. -/
def insertSorted (x : String) : List String → List String
  | [] => [x]
  | y :: t => if strJsLt y x then y :: insertSorted x t else x :: y :: t

/-- Stable sort of strings (insertion sort): model of JS `keys.sort()`. -/
def sortStrings : List String → List String
  | [] => []
  | x :: t => insertSorted x (sortStrings t)

/-! ## Proxy pool — `worker/internal/proxy/pool.go`

The pool keeps every proxy record in the association list `proxies` (the Go
map, used only through key lookup) while the buckets `alive`, `dead` and
`quarantine` hold proxy IDs (the Go slices hold pointers into the map; the
map is the heap of the embedding). -/

/-- Proxy status values (spec §3: unknown, alive, slow, quarantined, dead,
banned). -/
inductive ProxyStatus
  | unknown
  | alive
  | slow
  | quarantined
  | dead
  | banned
deriving DecidableEq, Repr

/-- Modelled from the spec: the `Proxy` record of `worker/internal/proxy`
(the file defining it is not under `src/`; `pool.go` and `pool_test.go` only
use it).  Fields follow spec §3 and the uses in `pool.go` / `pool_test.go`:
identity, status, counters (successes, failures, captcha hits, total
observed requests), average latency (seconds) and the cooldown-until
timestamp (seconds). -/
structure Proxy where
  id : String
  host : String := ""
  port : String := ""
  status : ProxyStatus := .unknown
  successCount : Nat := 0
  failCount : Nat := 0
  totalRequests : Nat := 0
  captchaCount : Nat := 0
  avgLatency : ℚ := 0
  cooldownUntil : ℚ := 0
deriving DecidableEq, Repr

/-- Modelled from the spec: `Proxy.IsAvailable` — the proxy is alive and its
cooldown-until lies in the past (spec §4.1 Get). -/
def Proxy.isAvailable (px : Proxy) (now : ℚ) : Bool :=
  px.status == .alive && decide (now > px.cooldownUntil)

/-- Modelled from the spec: `Proxy.RecordSuccess` — increments the success
counter, updates the moving average latency, marks the proxy alive and
resets the consecutive-failure counter (spec §4.1 ReportSuccess). -/
def Proxy.recordSuccess (px : Proxy) (latency : ℚ) : Proxy :=
  { px with
      successCount := px.successCount + 1
      totalRequests := px.totalRequests + 1
      failCount := 0
      status := .alive
      avgLatency :=
        (px.avgLatency * px.totalRequests + latency) / (px.totalRequests + 1) }

/-- Modelled from the spec: `Proxy.RecordFail` — increments the failure
counter; the failure is an observed request (spec §4.1 ReportFailure and the
success-rate figures of scenario S3). -/
def Proxy.recordFail (px : Proxy) : Proxy :=
  { px with failCount := px.failCount + 1, totalRequests := px.totalRequests + 1 }

/-- Modelled from the spec: `Proxy.RecordCaptcha` — increments the captcha
counter (spec §4.1 ReportCaptcha). -/
def Proxy.recordCaptcha (px : Proxy) : Proxy :=
  { px with captchaCount := px.captchaCount + 1 }

/-- Modelled from the spec: `Proxy.SetCooldown` — sets cooldown-until to
now + duration (spec §4.1). -/
def Proxy.setCooldown (px : Proxy) (now dur : ℚ) : Proxy :=
  { px with cooldownUntil := now + dur }

/-- Modelled from the spec: `Proxy.SuccessRate` — the percentage of
successful requests among the requests observed for this proxy
(`weightedSelect` divides it by 100, so it is a percentage; 0 when no
requests were observed). -/
def Proxy.successRate (px : Proxy) : ℚ :=
  if px.totalRequests > 0 then (px.successCount : ℚ) / px.totalRequests * 100 else 0

/-- `PoolConfig` (pool.go lines 11-17). -/
structure PoolConfig where
  maxFailures : Int
  cooldownDuration : ℚ
  quarantineDuration : ℚ
  healthCheckInterval : ℚ
  minSuccessRate : ℚ
deriving DecidableEq, Repr

/-- `DefaultPoolConfig` (pool.go lines 20-28). -/
def defaultPoolConfig : PoolConfig :=
  { maxFailures := 5
    cooldownDuration := 30
    quarantineDuration := 300
    healthCheckInterval := 60
    minSuccessRate := 50 }

/-- The `Pool` state (pool.go lines 31-45).  `rng` and `stopCh` are the
random draw and the background goroutine, modelled as explicit arguments of
the operations that need them. -/
structure Pool where
  proxies : List (String × Proxy)
  alive : List String
  dead : List String
  quarantine : List String
  config : PoolConfig
  totalRotations : Nat
  totalRequests : Nat
deriving DecidableEq, Repr

/-- `NewPool` (pool.go lines 48-58). -/
def Pool.new (config : PoolConfig) : Pool :=
  { proxies := [], alive := [], dead := [], quarantine := []
    config := config, totalRotations := 0, totalRequests := 0 }

/-- Map lookup `p.proxies[id]`. -/
def Pool.find? (p : Pool) (id : String) : Option Proxy :=
  (p.proxies.find? (fun e => e.1 == id)).map (·.2)

/-- Overwrite the record stored under `id` (the Go code mutates the record
through the shared pointer; the embedding rewrites the heap entry). -/
def setEntries (l : List (String × Proxy)) (id : String) (px : Proxy) :
    List (String × Proxy) :=
  match l with
  | [] => []
  | e :: t => if e.1 == id then (e.1, px) :: setEntries t id px else e :: setEntries t id px

/-- Pool-level wrapper of `setEntries`. -/
def Pool.setProxy (p : Pool) (id : String) (px : Proxy) : Pool :=
  { p with proxies := setEntries p.proxies id px }

/-- `Pool.AddProxy` (pool.go lines 61-74): fails when the ID exists, else
marks the proxy alive, stores it and appends it to the alive bucket. -/
def Pool.addProxy (p : Pool) (px : Proxy) : Except String Pool :=
  match p.find? px.id with
  | some _ => .error ("proxy " ++ px.id ++ " already exists")
  | none =>
    let px := { px with status := ProxyStatus.alive }
    .ok { p with proxies := p.proxies ++ [(px.id, px)], alive := p.alive ++ [px.id] }

/-- `Pool.quarantineProxy` (pool.go lines 234-247): set status quarantined,
set the quarantine cooldown, remove the first matching ID from the alive
bucket, append to the quarantine bucket. -/
def Pool.quarantineProxy (p : Pool) (id : String) (now : ℚ) : Pool :=
  match p.find? id with
  | none => p
  | some px =>
    let px := (Proxy.setCooldown { px with status := ProxyStatus.quarantined }
      now p.config.quarantineDuration)
    let p := p.setProxy id px
    { p with alive := p.alive.erase id, quarantine := p.quarantine ++ [id] }

/-- `Pool.ReportSuccess` (pool.go lines 174-185): unknown IDs are ignored. -/
def Pool.reportSuccess (p : Pool) (id : String) (latency : ℚ) : Pool :=
  match p.find? id with
  | none => p
  | some px =>
    let p := p.setProxy id (px.recordSuccess latency)
    { p with totalRequests := p.totalRequests + 1 }

/-- `Pool.ReportFailure` (pool.go lines 188-204): unknown IDs are ignored;
reaching `MaxFailures` consecutive failures quarantines the proxy. -/
def Pool.reportFailure (p : Pool) (id : String) (now : ℚ) : Pool :=
  match p.find? id with
  | none => p
  | some px =>
    let px := px.recordFail
    let p := p.setProxy id px
    let p := { p with totalRequests := p.totalRequests + 1 }
    if (px.failCount : Int) ≥ p.config.maxFailures then p.quarantineProxy id now else p

/-- `Pool.ReportCaptcha` (pool.go lines 207-218): unknown IDs are ignored. -/
def Pool.reportCaptcha (p : Pool) (id : String) (now : ℚ) : Pool :=
  match p.find? id with
  | none => p
  | some px =>
    p.setProxy id ((px.recordCaptcha).setCooldown now p.config.cooldownDuration)

/-- `Pool.ReportBlock` (pool.go lines 221-231): unknown IDs are ignored;
known IDs are quarantined unconditionally. -/
def Pool.reportBlock (p : Pool) (id : String) (now : ℚ) : Pool :=
  match p.find? id with
  | none => p
  | some _ => p.quarantineProxy id now

/-- The weight computation of `weightedSelect` (pool.go lines 135-147):
base weight 1, plus `SuccessRate()/100*2` when requests were observed,
halved when the average latency exceeds 5 seconds. -/
def proxyWeight (px : Proxy) : ℚ :=
  let weight : ℚ := 1
  let weight := if px.totalRequests > 0 then weight + px.successRate / 100 * 2 else weight
  if px.avgLatency > 5 then weight * (1 / 2) else weight

/-- The cumulative linear scan of `weightedSelect` (pool.go lines 151-158):
returns the first proxy whose cumulative weight reaches the draw `r`. -/
def scanCumulative (r : ℚ) (cumulative : ℚ) : List Proxy → Option Proxy
  | [] => none
  | px :: rest =>
    let c := cumulative + proxyWeight px
    if r ≤ c then some px else scanCumulative r c rest

/-- `Pool.weightedSelect` (pool.go lines 126-162).  The `rng.Float64()` draw
is the explicit parameter `u`; the Go function is only called on non-empty
lists, so the `[]` case (`none`) is unreachable at its call site. -/
def Pool.weightedSelect (proxies : List Proxy) (u : ℚ) : Option Proxy :=
  match proxies with
  | [] => none
  | [px] => some px
  | _ =>
    let totalWeight := (proxies.map proxyWeight).sum
    let r := u * totalWeight
    match scanCumulative r 0 proxies with
    | some px => some px
    | none => proxies.getLast?

/-- The `available` filter of `Pool.Get` (pool.go lines 109-114): the alive
bucket restricted to available proxies. -/
def Pool.availableProxies (p : Pool) (now : ℚ) : List Proxy :=
  (p.alive.filterMap p.find?).filter (fun px => px.isAvailable now)

/-- `Pool.Get` (pool.go lines 102-123): one rotation is counted, the alive
bucket is filtered on availability, and a weighted random selection is made;
an empty candidate list yields the no-available-proxies error. -/
def Pool.get (p : Pool) (now u : ℚ) : Pool × Except String Proxy :=
  let p := { p with totalRotations := p.totalRotations + 1 }
  let available := p.availableProxies now
  if available.isEmpty then (p, .error "no available proxies")
  else
    match Pool.weightedSelect available u with
    | some px => (p, .ok px)
    | none => (p, .error "no available proxies")

/-- A run of consecutive `ReportFailure(id)` calls at the given times, with
no other operation in between. -/
def failStreak (p : Pool) (id : String) (ts : List ℚ) : Pool :=
  ts.foldl (fun pp t => pp.reportFailure id t) p

/-! ### Spec-side selection (for the refinement claim about `Pool.Get`)

These two definitions follow the wording of spec §4.1 Get, to be compared
with the source-derived `proxyWeight` / `Pool.weightedSelect`. -/

/-- Spec-side weight: `wᵢ = 1 + 2·sᵢ` where `sᵢ ∈ [0,1]` is the success rate
among observed requests (0 when no requests yet), with a multiplicative 0.5
penalty when the observed average latency exceeds 5 s. -/
def specWeight (px : Proxy) : ℚ :=
  let s : ℚ := if px.totalRequests > 0 then px.successRate / 100 else 0
  (1 + 2 * s) * (if px.avgLatency > 5 then (1 / 2 : ℚ) else 1)

/-- Spec-side choice: a linear scan over cumulative weights against one
uniform draw scaled to the total; if the scan does not place the draw, the
last candidate is returned. -/
def specSelect (candidates : List Proxy) (u : ℚ) : Option Proxy :=
  let total := (candidates.map specWeight).sum
  let r := u * total
  let cums := ((candidates.map specWeight).scanl (· + ·) 0).tail
  match (candidates.zip cums).find? (fun pc => decide (r ≤ pc.2)) with
  | some pc => some pc.1
  | none => candidates.getLast?

/-! ### Pool operation language

The mutating operations of the pool API (everything except the health-check
sweep, which is the reviving operation the quarantine claim stops at). -/

/-- One call into the pool API: `Get`, the four report operations, or
`AddProxy`. -/
inductive PoolOp
  | get (now u : ℚ)
  | reportSuccess (id : String) (latency : ℚ)
  | reportFailure (id : String) (now : ℚ)
  | reportCaptcha (id : String) (now : ℚ)
  | reportBlock (id : String) (now : ℚ)
  | addProxy (px : Proxy)

/-- Apply one pool operation (a failing `AddProxy` leaves the pool as is,
matching the Go caller that receives the error). -/
def Pool.applyOp (p : Pool) : PoolOp → Pool
  | .get now u => (p.get now u).1
  | .reportSuccess id lat => p.reportSuccess id lat
  | .reportFailure id now => p.reportFailure id now
  | .reportCaptcha id now => p.reportCaptcha id now
  | .reportBlock id now => p.reportBlock id now
  | .addProxy px =>
    match p.addProxy px with
    | .ok q => q
    | .error _ => p

/-- Apply a sequence of pool operations. -/
def Pool.applyOps (p : Pool) (ops : List PoolOp) : Pool :=
  ops.foldl Pool.applyOp p

/-- Heap consistency: every stored record carries the key it is stored
under.  Holds for every pool built through the API. -/
def idConsistent (p : Pool) : Prop :=
  ∀ e ∈ p.proxies, e.2.id = e.1

/-- The quarantine invariant for a proxy ID: it is out of the alive bucket,
still present in the heap, and the heap is consistent. -/
def quarantineInv (p : Pool) (id : String) : Prop :=
  id ∉ p.alive ∧ (p.find? id).isSome ∧ idConsistent p

/-! ## Engine adapter — `worker/internal/engine/engine.go`

The Go standard library pieces (`url.QueryUnescape`, `url.Parse`,
`url.Values.Get`) are modelled below for the hierarchical http/https URL
shapes the adapter feeds them (ASCII data; an authority is kept verbatim as
`Host`, matching Go, which includes any port in `URL.Host`). -/

/-- Hex digit value of a character, if any. -/
def hexDigit? (c : Char) : Option Nat :=
  if '0' ≤ c ∧ c ≤ '9' then some (c.toNat - 48)
  else if 'a' ≤ c ∧ c ≤ 'f' then some (c.toNat - 87)
  else if 'A' ≤ c ∧ c ≤ 'F' then some (c.toNat - 55)
  else none

/-- Percent-decoding with `+` as space: model of Go `url.QueryUnescape`
(bytewise; decoded bytes are kept as single characters). -/
def unescapeList : List Char → Option (List Char)
  | [] => some []
  | '%' :: h1 :: h2 :: t =>
    match hexDigit? h1, hexDigit? h2 with
    | some a, some b => (unescapeList t).map (fun r => Char.ofNat (16 * a + b) :: r)
    | _, _ => none
  | '%' :: _ => none
  | '+' :: t => (unescapeList t).map (fun r => ' ' :: r)
  | c :: t => (unescapeList t).map (fun r => c :: r)

/-- String-level wrapper of `unescapeList`. -/
def queryUnescape (s : String) : Option String :=
  (unescapeList s.data).map List.asString

/-- Take characters until one of `stops` is met; returns the taken piece and
the remainder (stop character included). -/
def takeUntilAny (stops : List Char) : List Char → List Char × List Char
  | [] => ([], [])
  | c :: t =>
    if stops.contains c then ([], c :: t)
    else
      let (a, b) := takeUntilAny stops t
      (c :: a, b)

/-- ASCII letter test. -/
def isAsciiAlpha (c : Char) : Bool :=
  ('a' ≤ c ∧ c ≤ 'z') ∨ ('A' ≤ c ∧ c ≤ 'Z')

/-- ASCII digit test. -/
def isAsciiDigit (c : Char) : Bool :=
  '0' ≤ c ∧ c ≤ '9'

/-- Characters allowed inside a URL scheme after its leading letter. -/
def isSchemeChar (c : Char) : Bool :=
  isAsciiAlpha c ∨ isAsciiDigit c ∨ c = '+' ∨ c = '-' ∨ c = '.'

/-- Model of Go `getScheme`: scan scheme characters from a leading letter up
to a colon; a leading colon is a parse error (`none`), any other shape means
no scheme and leaves the input untouched. -/
def goGetScheme (s : List Char) : Option (Option String × List Char) :=
  match s with
  | [] => some (none, [])
  | c :: _ =>
    if c = ':' then none
    else if isAsciiAlpha c then
      let pre := s.takeWhile isSchemeChar
      let rest := s.dropWhile isSchemeChar
      match rest with
      | ':' :: r2 => some (some pre.asString, r2)
      | _ => some (none, s)
    else some (none, s)

/-- The fields of Go `net/url.URL` the adapter reads. -/
structure GoURL where
  scheme : String
  host : String
  path : String
  rawQuery : String
deriving DecidableEq, Repr

/-- Model of Go `url.Parse` on the adapter inputs: the fragment is cut at
the first `#` and the raw query at the first `?`; the scheme is recognised
by `goGetScheme` and lowercased; a remainder starting `//` carries the
authority up to the next `/`, kept verbatim as `Host` (Go keeps any port
there; userinfo is outside the modelled fragment); everything else has an
empty `Host`. -/
def parseGoURL (s : String) : Option GoURL :=
  let beforeFrag := (takeUntilAny ['#'] s.data).1
  let (beforeQ, qrest) := takeUntilAny ['?'] beforeFrag
  let rawQuery :=
    match qrest with
    | '?' :: t => t
    | _ => []
  match goGetScheme beforeQ with
  | none => none
  | some (schemeOpt, rest) =>
    let scheme :=
      match schemeOpt with
      | some sc => strToLower sc
      | none => ""
    match rest with
    | '/' :: '/' :: afterSlashes =>
      let (auth, pathCs) := takeUntilAny ['/'] afterSlashes
      some { scheme := scheme, host := auth.asString, path := pathCs.asString
             rawQuery := rawQuery.asString }
    | _ =>
      some { scheme := scheme, host := "", path := rest.asString
             rawQuery := rawQuery.asString }

/-- Model of Go `u.Query().Get(key)`: split the raw query on `&`, split each
segment at its first `=`, percent-decode both sides (malformed pairs are
dropped), return the first value bound to `key`, or the empty string. -/
def goQueryGet (rawQuery key : String) : String :=
  let segs := splitOnChar '&' rawQuery.data
  let pairs := segs.filterMap (fun seg =>
    if seg.isEmpty then none
    else
      let (k, rest) := takeUntilAny ['='] seg
      let v := match rest with
        | '=' :: vs => vs
        | _ => []
      match unescapeList k, unescapeList v with
      | some k2, some v2 => some (k2.asString, v2.asString)
      | _, _ => none)
  match pairs.find? (fun kv => kv.1 == key) with
  | some kv => kv.2
  | none => ""

/-- The `Google` engine configuration (engine.go lines 28-35). -/
structure Google where
  domain : String := "www.google.com"
  language : String := "en"
  country : String := "us"
  safeSearch : Bool := false
  excludeDomains : List String := []
deriving DecidableEq, Repr

/-- `Google.cleanURL` (engine.go lines 160-200): percent-decode (falling
back to the raw string on error), expand the three HTML entities, unwrap
redirect-style `/url?` links through the `q=` (else `url=`) parameter, and
validate: a non-empty http/https scheme and a non-empty host are required,
otherwise the empty string is returned. -/
def cleanURL (rawURL : String) : String :=
  let decoded :=
    match queryUnescape rawURL with
    | some d => d
    | none => rawURL
  let decoded := replaceAll decoded "&amp;" "&"
  let decoded := replaceAll decoded "&#39;" (String.singleton (Char.ofNat 39))
  let decoded := replaceAll decoded "&quot;" "\""
  let decoded :=
    if containsSubstr decoded "/url?" then
      match parseGoURL decoded with
      | some u =>
        let q := goQueryGet u.rawQuery "q"
        if q ≠ "" then q
        else
          let q2 := goQueryGet u.rawQuery "url"
          if q2 ≠ "" then q2 else decoded
      | none => decoded
    else decoded
  match parseGoURL decoded with
  | none => ""
  | some parsed =>
    if parsed.scheme = "" ∨ parsed.host = "" then ""
    else if parsed.scheme ≠ "http" ∧ parsed.scheme ≠ "https" then ""
    else decoded

/-- The fixed Google-internal domain list (engine.go lines 204-215). -/
def googleInternalDomains : List String :=
  ["google.com", "google.co", "googleapis.com", "gstatic.com",
   "googleusercontent.com", "google-analytics.com", "googleadservices.com",
   "googlesyndication.com", "youtube.com", "youtu.be"]

/-- `Google.isGoogleURL` (engine.go lines 203-230): the lowercased host
equals one of the internal domains or ends in `.` + one of them. -/
def Google.isGoogleURL (_g : Google) (urlStr : String) : Bool :=
  match parseGoURL urlStr with
  | none => false
  | some parsed =>
    let host := strToLower parsed.host
    googleInternalDomains.any (fun d => host == d || strEndsWith host ("." ++ d))

/-- `Google.isExcludedDomain` (engine.go lines 233-251): with a non-empty
exclude list, the lowercased host is rejected when it equals an entry or
ends in `.` + an entry. -/
def Google.isExcludedDomain (g : Google) (urlStr : String) : Bool :=
  if g.excludeDomains.isEmpty then false
  else
    match parseGoURL urlStr with
    | none => false
    | some parsed =>
      let host := strToLower parsed.host
      g.excludeDomains.any (fun d => host == d || strEndsWith host ("." ++ d))

/-- A search result (engine.go lines 20-25; only the fields the extraction
fills on every path). -/
structure SearchResult where
  url : String
  position : Nat
deriving DecidableEq, Repr

/-- `Google.parseJSONLD` (engine.go lines 254-283), over the list of
captures of the inner `"url"\s*:\s*"(https?://…)"` pattern (the regular
expression layer is modelled as this list of captured strings): each capture
is cleaned and kept when non-empty and not Google-internal; positions stay
0 and are assigned by the caller. -/
def Google.parseJSONLDFrom (g : Google) (urlCandidates : List String) :
    List SearchResult :=
  urlCandidates.foldl (fun results u =>
    let c := cleanURL u
    if c ≠ "" ∧ ¬ g.isGoogleURL c then results ++ [⟨c, 0⟩] else results) []

/-- One step of the main extraction loop of `Google.ParseResults`
(engine.go lines 102-143): clean, drop empties, deduplicate against `seen`,
drop Google-internal URLs, drop excluded domains, then emit with the next
position. -/
def parseResultsStep (g : Google) (acc : List String × Nat × List SearchResult)
    (rawURL : String) : List String × Nat × List SearchResult :=
  let (seen, position, results) := acc
  let cleanU := cleanURL rawURL
  if cleanU = "" then acc
  else if seen.contains cleanU then acc
  else if g.isGoogleURL cleanU then acc
  else if g.isExcludedDomain cleanU then acc
  else (seen ++ [cleanU], position + 1, results ++ [⟨cleanU, position + 1⟩])

/-- `Google.ParseResults` (engine.go lines 83-157), over the captured
submatches of the four URL patterns (in pattern order, `rawCandidates`) and
the captures inside JSON-LD blocks (`jsonldCandidates`); the regular
expression layer is modelled as these two capture lists.  JSON-LD results
are appended after the main loop, deduplicated against `seen` only. -/
def Google.parseResultsFrom (g : Google) (rawCandidates jsonldCandidates : List String) :
    List SearchResult :=
  let acc := rawCandidates.foldl (parseResultsStep g) ([], 0, [])
  let jsonResults := g.parseJSONLDFrom jsonldCandidates
  let final := jsonResults.foldl (fun (acc : List String × Nat × List SearchResult) jr =>
    let (seen, position, results) := acc
    if seen.contains jr.url then acc
    else (seen ++ [jr.url], position + 1, results ++ [⟨jr.url, position + 1⟩])) acc
  final.2.2

/-! ## Task queue — `src/orchestrator/taskQueue.ts` -/

/-- JS whitespace test used by `String.prototype.trim` (ASCII fragment). -/
def isJsSpace (c : Char) : Bool :=
  c = ' ' ∨ c = '\t' ∨ c = '\n' ∨ c = '\r'

/-- Model of JS `String.prototype.trim`. -/
def strTrim (s : String) : String :=
  ⟨((s.data.dropWhile isJsSpace).reverse.dropWhile isJsSpace).reverse⟩

/-- Task status values of the TS `Task` type. -/
inductive TaskStatus
  | pending
  | running
  | completed
  | failed
deriving DecidableEq, Repr

/-- `TaskPriority.LOW` (taskQueue.ts line 15). -/
def priorityLOW : Nat := 0

/-- `TaskPriority.NORMAL` (taskQueue.ts line 16). -/
def priorityNORMAL : Nat := 1

/-- `TaskPriority.HIGH` (taskQueue.ts line 17). -/
def priorityHIGH : Nat := 2

/-- `TaskPriority.CRITICAL` (taskQueue.ts line 18). -/
def priorityCRITICAL : Nat := 3

/-- The TS `PriorityTask` (taskQueue.ts lines 22-25; timestamps and the
error string are not modelled, nothing below reads them). -/
structure PTask where
  id : String
  dork : String
  page : Nat
  status : TaskStatus
  priority : Nat
  maxRetries : Nat
  retryCount : Nat
  urls : List String
deriving DecidableEq, Repr

/-- The `TaskQueue` state (taskQueue.ts lines 38-47). -/
structure TaskQueue where
  pending : List PTask
  running : List (String × PTask)
  completed : List PTask
  failed : List PTask
  maxConcurrent : Nat
  maxRetries : Nat
  paused : Bool
  processedDorks : List String
  pagesPerDork : Nat
deriving DecidableEq, Repr

/-- The `TaskQueue` constructor (taskQueue.ts lines 49-58) with the given
options (defaults 100, 3, 5). -/
def TaskQueue.new (maxConcurrent maxRetries pagesPerDork : Nat) : TaskQueue :=
  { pending := [], running := [], completed := [], failed := []
    maxConcurrent := maxConcurrent, maxRetries := maxRetries
    paused := false, processedDorks := [], pagesPerDork := pagesPerDork }

/-- The scan of `insertByPriority` (taskQueue.ts lines 136-152): the
insertion point is the first index whose task has strictly lower priority.
The source tests the same condition in both branches of `if (front)`, so the
`front` flag does not change the comparison; the duplication is kept here
verbatim. -/
def insertScan (t : PTask) (front : Bool) : List PTask → List PTask
  | [] => [t]
  | p :: rest =>
    if front then
      if p.priority < t.priority then t :: p :: rest else p :: insertScan t front rest
    else
      if p.priority < t.priority then t :: p :: rest else p :: insertScan t front rest

/-- `TaskQueue.insertByPriority` (taskQueue.ts lines 130-153). -/
def TaskQueue.insertByPriority (q : TaskQueue) (t : PTask) (front : Bool) : TaskQueue :=
  if q.pending.isEmpty then { q with pending := q.pending ++ [t] }
  else { q with pending := insertScan t front q.pending }

/-- `TaskQueue.addDork` (taskQueue.ts lines 63-83); the `nanoid()` fresh ID
is the explicit `taskId` argument. -/
def TaskQueue.addDork (q : TaskQueue) (taskId dork : String) (priority : Nat) : TaskQueue :=
  let task : PTask :=
    { id := taskId, dork := strTrim dork, page := 0, status := .pending
      priority := priority, maxRetries := q.maxRetries, retryCount := 0, urls := [] }
  q.insertByPriority task false

/-- `TaskQueue.addPageTask` (taskQueue.ts lines 105-125); called with
`front = true` ("Insert at front for same priority (prioritize
pagination)"). -/
def TaskQueue.addPageTask (q : TaskQueue) (taskId dork : String) (page : Nat)
    (priority : Nat) : TaskQueue :=
  let task : PTask :=
    { id := taskId, dork := strTrim dork, page := page, status := .pending
      priority := priority, maxRetries := q.maxRetries, retryCount := 0, urls := [] }
  q.insertByPriority task true

/-! ## URL model — WHATWG `new URL` / `URLSearchParams`, ASCII fragment

`src/filter/index.ts` normalizes URLs through the WHATWG URL parser.  The
model below covers the hierarchical `scheme://host[:port][/path][?query]`
shapes the deduplicators feed it: hostname lowercased, scheme-default port
elided, absent path read as `/`, fragment discarded by the callers.
Userinfo, IPv6 hosts and WHATWG percent-encoding normalization are
outside the modelled fragment. -/

/-- The parsed-URL fields read by `src/filter/index.ts`. -/
structure JsURL where
  protocol : String
  hostname : String
  port : String
  pathname : String
  search : String
deriving DecidableEq, Repr

/-- Scheme validity for the WHATWG parser: a leading ASCII letter followed
by scheme characters. -/
def validJsScheme (l : List Char) : Bool :=
  match l with
  | [] => false
  | c :: rest => isAsciiAlpha c ∧ rest.all isSchemeChar

/-- Model of the WHATWG `new URL(s)` constructor (fragment above); an
invalid scheme before the `://` makes the constructor throw (`none`). -/
def parseJsURL (s : String) : Option JsURL :=
  match indexOfSubstr s "://" with
  | none => none
  | some i =>
    if ¬ validJsScheme (s.data.take i) then none
    else
    let scheme := strToLower ⟨s.data.take i⟩
    let rest := s.data.drop (i + 3)
    let (auth, tail) := takeUntilAny ['/', '?', '#'] rest
    let (hostCs, portRest) := takeUntilAny [':'] auth
    let host := strToLower hostCs.asString
    if host = "" then none
    else
      let portStr :=
        match portRest with
        | ':' :: p => p.asString
        | _ => ""
      let port :=
        if (scheme = "http" ∧ portStr = "80") ∨ (scheme = "https" ∧ portStr = "443")
        then "" else portStr
      let (pathCs, tail2) := takeUntilAny ['?', '#'] tail
      let search :=
        match tail2 with
        | '?' :: t =>
          let q := (takeUntilAny ['#'] t).1
          if q.isEmpty then "" else "?" ++ q.asString
        | _ => ""
      let pathname := if pathCs.isEmpty then "/" else pathCs.asString
      some { protocol := scheme ++ ":", hostname := host, port := port
             pathname := pathname, search := search }

/-- Lenient form decoding of a query component (model of `URLSearchParams`
reading: `+` is space, valid `%XX` pairs are decoded, malformed percent
signs pass through). -/
def formDecodeList : List Char → List Char
  | [] => []
  | '%' :: h1 :: h2 :: t =>
    match hexDigit? h1, hexDigit? h2 with
    | some a, some b => Char.ofNat (16 * a + b) :: formDecodeList t
    | _, _ => '%' :: formDecodeList (h1 :: h2 :: t)
  | '+' :: t => ' ' :: formDecodeList t
  | c :: t => c :: formDecodeList t

/-- Model of `new URLSearchParams(search)`: strip a leading `?`, split on
`&`, split each non-empty segment at its first `=`, form-decode both
sides. -/
def parseSearchParams (search : String) : List (String × String) :=
  let l :=
    match search.data with
    | '?' :: t => t
    | t => t
  (splitOnChar '&' l).filterMap (fun seg =>
    if seg.isEmpty then none
    else
      let (k, rest) := takeUntilAny ['='] seg
      let v :=
        match rest with
        | '=' :: vs => vs
        | _ => []
      some ((formDecodeList k).asString, (formDecodeList v).asString))

/-- Characters serialized verbatim by `application/x-www-form-urlencoded`. -/
def isFormSafe (c : Char) : Bool :=
  ('A' ≤ c ∧ c ≤ 'Z') ∨ ('a' ≤ c ∧ c ≤ 'z') ∨ ('0' ≤ c ∧ c ≤ '9') ∨
  c = '*' ∨ c = '-' ∨ c = '.' ∨ c = '_'

/-- Uppercase hex digit. -/
def hexUpper (n : Nat) : Char :=
  if n < 10 then Char.ofNat (48 + n) else Char.ofNat (55 + n)

/-- `%XX` escape of one byte. -/
def percentByte (b : Nat) : List Char :=
  ['%', hexUpper (b / 16), hexUpper (b % 16)]

/-- Form encoding of one character (Latin-1 fragment of the urlencoded
serializer: safe characters verbatim, space as `+`, the rest escaped). -/
def formEncodeChar (c : Char) : List Char :=
  if isFormSafe c then [c]
  else if c = ' ' then ['+']
  else percentByte (c.toNat % 256)

/-- Form encoding of a string. -/
def formEncode (s : String) : String :=
  ⟨s.data.foldr (fun c acc => formEncodeChar c ++ acc) []⟩

/-- Join strings with a separator (model of `Array.prototype.join`). -/
def joinWith (sep : String) : List String → String
  | [] => ""
  | [x] => x
  | x :: t => x ++ sep ++ joinWith sep t

/-- Model of `URLSearchParams.prototype.toString`. -/
def serializeParams (pairs : List (String × String)) : String :=
  joinWith "&" (pairs.map (fun kv => formEncode kv.1 ++ "=" ++ formEncode kv.2))

/-- Model of `params.get(k)`: the first value bound to `k`. -/
def paramsGet (pairs : List (String × String)) (k : String) : Option String :=
  (pairs.find? (fun kv => kv.1 == k)).map (·.2)

/-- Model of `params.delete(k)`: every pair with key `k` is removed. -/
def paramsDelete (pairs : List (String × String)) (k : String) :
    List (String × String) :=
  pairs.filter (fun kv => ¬ (kv.1 == k))

/-- Model of `params.set(k, v)`: replace the first binding (dropping later
duplicates) or append a new one. -/
def paramsSet : List (String × String) → String → String → List (String × String)
  | [], k, v => [(k, v)]
  | kv :: t, k, v =>
    if kv.1 == k then (k, v) :: paramsDelete t k else kv :: paramsSet t k v

/-! ## Deduplication — first `UrlDeduplicator` copy in `src/filter/index.ts`
(lines 470-959), the one the `FilterPipeline` constructor instantiates (its
options carry the `normalizeUrls` field of this copy). -/

/-- Dedup modes (index.ts line 481). -/
inductive DedupMode
  | exact
  | normalized
  | domain
  | topDomain
deriving DecidableEq, Repr

/-- `DedupOptions` (index.ts lines 483-488). -/
structure DedupOptions where
  mode : DedupMode
  normalizeUrls : Bool
  removeTrackingParams : Bool
  caseSensitive : Bool
deriving DecidableEq, Repr

/-- `TRACKING_PARAMS` (index.ts lines 498-505). -/
def trackingParams : List String :=
  ["utm_source", "utm_medium", "utm_campaign", "utm_term", "utm_content",
   "fbclid", "gclid", "gclsrc", "dclid", "zanpid", "msclkid",
   "_ga", "_gl", "_hsenc", "_hsmi", "mc_cid", "mc_eid",
   "ref", "referer", "referrer", "source", "src",
   "affiliate", "aff_id", "partner", "campaign",
   "track", "tracking", "trk", "click_id"]

/-- `UrlDeduplicator.normalizeUrl` (index.ts lines 538-597): parse (with an
`http://` default scheme), lowercase the hostname, keep a non-standard
port, strip a trailing slash from non-root paths, drop tracking parameters,
rebuild the query with keys in sorted order, drop the fragment, and —
unless case sensitive — lowercase the final string; unparseable input is
returned (lowercased). -/
def UrlDedup.normalizeUrl (opts : DedupOptions) (url : String) : String :=
  let urlToParse := if ¬ containsSubstr url "://" then "http://" ++ url else url
  match parseJsURL urlToParse with
  | none => if opts.caseSensitive then url else strToLower url
  | some parsed =>
    let normalized := parsed.protocol ++ "//" ++ strToLower parsed.hostname
    let normalized :=
      if parsed.port ≠ "" ∧ parsed.port ≠ "80" ∧ parsed.port ≠ "443"
      then normalized ++ ":" ++ parsed.port else normalized
    let pathname := parsed.pathname
    let pathname :=
      if pathname.length > 1 ∧ strEndsWith pathname "/"
      then ⟨pathname.data.dropLast⟩ else pathname
    let normalized := normalized ++ pathname
    let normalized :=
      if parsed.search ≠ "" then
        let params := parseSearchParams parsed.search
        let params :=
          if opts.removeTrackingParams then trackingParams.foldl paramsDelete params
          else params
        let keys := sortStrings (params.map (·.1))
        let sortedParams := keys.foldl (fun acc k =>
          match paramsGet params k with
          | some v => paramsSet acc k v
          | none => acc) []
        let queryString := serializeParams sortedParams
        if queryString ≠ "" then normalized ++ "?" ++ queryString else normalized
      else normalized
    if opts.caseSensitive then normalized else strToLower normalized

/-- `UrlDeduplicator.extractDomain` (index.ts lines 602-613). -/
def UrlDedup.extractDomain (url : String) : String :=
  let urlToParse := if ¬ containsSubstr url "://" then "http://" ++ url else url
  match parseJsURL urlToParse with
  | some parsed => strToLower parsed.hostname
  | none => strToLower url

/-- The two-label public-suffix table of `UrlDeduplicator.extractTopDomain`
(index.ts lines 625-628). -/
def urlDedupSecondLevelTlds : List String :=
  ["co.uk", "com.au", "com.br", "co.jp", "co.kr", "co.nz", "co.za",
   "com.cn", "com.mx", "com.tw", "org.uk", "net.au"]

/-- `UrlDeduplicator.extractTopDomain` (index.ts lines 618-638): with at
most two labels the domain itself; otherwise the last three labels when the
last two form a table entry, else the last two labels. -/
def UrlDedup.extractTopDomain (url : String) : String :=
  let domain := UrlDedup.extractDomain url
  let parts := splitDots domain
  if parts.length ≤ 2 then domain
  else
    let lastTwo := joinWith "." (lastN 2 parts)
    if urlDedupSecondLevelTlds.contains lastTwo then joinWith "." (lastN 3 parts)
    else lastTwo

/-- The Bloom filter of the `bloom-filters` package, abstracted: the state
is the list of set bit indices; the hash family `h` is a parameter. -/
structure BloomFilter where
  bits : List Nat
deriving DecidableEq, Repr

/-- `bloomFilter.add(key)`: set every bit `h key` designates. -/
def BloomFilter.add (h : String → List Nat) (bf : BloomFilter) (key : String) :
    BloomFilter :=
  ⟨bf.bits ++ h key⟩

/-- `bloomFilter.has(key)`: all designated bits are set. -/
def BloomFilter.query (h : String → List Nat) (bf : BloomFilter) (key : String) :
    Bool :=
  (h key).all (fun b => bf.bits.contains b)

/-- The `UrlDeduplicator` state (index.ts lines 507-533): Bloom filter,
optional exact set (`null` unless `useExactFallback`), options, counter. -/
structure UrlDeduplicator where
  bloom : BloomFilter
  exactSet : Option (List String)
  opts : DedupOptions
  count : Nat
deriving DecidableEq, Repr

/-- `UrlDeduplicator.getKey` (index.ts lines 643-656). -/
def UrlDeduplicator.getKey (d : UrlDeduplicator) (url : String) : String :=
  match d.opts.mode with
  | .exact => if d.opts.caseSensitive then url else strToLower url
  | .normalized => UrlDedup.normalizeUrl d.opts url
  | .domain => UrlDedup.extractDomain url
  | .topDomain => UrlDedup.extractTopDomain url

/-- `UrlDeduplicator.add` (index.ts lines 676-698): with an exact set the
key is tested and inserted there (and in the Bloom filter); without one the
Bloom filter alone is tested and updated.  Returns the updated state and
whether the URL was new. -/
def UrlDeduplicator.add (h : String → List Nat) (d : UrlDeduplicator)
    (url : String) : UrlDeduplicator × Bool :=
  let key := d.getKey url
  match d.exactSet with
  | some es =>
    if es.contains key then (d, false)
    else
      ({ d with exactSet := some (es ++ [key]), bloom := d.bloom.add h key
                count := d.count + 1 }, true)
  | none =>
    if d.bloom.query h key then (d, false)
    else ({ d with bloom := d.bloom.add h key, count := d.count + 1 }, true)

/-- The two-label public-suffix table of `DomainDeduplicator.extractTopDomain`
(index.ts line 803). -/
def domainDedupSecondLevelTlds : List String :=
  ["co.uk", "com.au", "com.br", "co.jp", "co.kr"]

/-- `DomainDeduplicator.extractTopDomain` (index.ts lines 799-813): same
shape as the URL-level variant but on a domain string and with the shorter
table. -/
def DomainDedup.extractTopDomain (domain : String) : String :=
  let parts := splitDots domain
  if parts.length ≤ 2 then domain
  else
    let lastTwo := joinWith "." (lastN 2 parts)
    if domainDedupSecondLevelTlds.contains lastTwo then joinWith "." (lastN 3 parts)
    else lastTwo

/-- The `DomainDeduplicator` state (index.ts lines 776-778); JS sets are
lists in insertion order. -/
structure DomainDedupState where
  domains : List String
  topDomains : List String
deriving DecidableEq, Repr

/-- `DomainDeduplicator.addDomain` (index.ts lines 818-829). -/
def DomainDedupState.addDomain (st : DomainDedupState) (domain : String) :
    DomainDedupState :=
  let lower := strToLower domain
  if st.domains.contains lower then st
  else
    let st := { st with domains := st.domains ++ [lower] }
    let top := DomainDedup.extractTopDomain lower
    { st with topDomains :=
        if st.topDomains.contains top then st.topDomains else st.topDomains ++ [top] }

/-! ## Filter pipeline — `FilterPipeline` in `src/filter/index.ts`

The functions imported from `./domain.js` (`extractDomain`,
`extractTopDomain`, `isValidDomain`, `matchesPattern`) and the anti-public
membership test are not part of the source snapshot; they enter the model
as the parameter record `DomainFns`, so every theorem below holds for an
arbitrary behavior of those functions.  An `Option.none` result models both
`null` and the empty string (JS falsiness). -/

/-- The external domain helpers of the pipeline. -/
structure DomainFns where
  extractDomain : String → Option String
  extractTopDomain : String → Option String
  isValidDomain : String → Bool
  matchesPattern : String → String → Bool
  isPublicDomain : String → Bool

/-- `FilterPipelineOptions` (index.ts lines 22-50), without the nested
anti-public tracking switches (nothing below reads them). -/
structure PipelineOptions where
  removeDuplicates : Bool
  domainWhitelist : List String
  domainBlacklist : List String
  tldWhitelist : List String
  tldBlacklist : List String
  urlParamsOnly : Bool
  minUrlLength : Nat
  maxUrlLength : Nat
  keywordInclude : List String
  keywordExclude : List String
  antiPublic : Bool
  extensionWhitelist : List String
  extensionBlacklist : List String

/-- Last index of a character in a list (model of JS `lastIndexOf`). -/
def lastIndexOfChar (l : List Char) (c : Char) : Option Nat :=
  (indexOfList l.reverse [c]).map (fun i => l.length - 1 - i)

/-- The `/^\.[a-z0-9]+$/` test of `extractExtension`. -/
def extRegexTest (s : String) : Bool :=
  match s.data with
  | '.' :: rest =>
    ¬ rest.isEmpty ∧ rest.all (fun c => ('a' ≤ c ∧ c ≤ 'z') ∨ ('0' ≤ c ∧ c ≤ '9'))
  | _ => false

/-- `FilterPipeline.extractExtension` (index.ts lines 336-353). -/
def extractExtension (url : String) : Option String :=
  let urlToParse := if ¬ containsSubstr url "://" then "http://" ++ url else url
  match parseJsURL urlToParse with
  | none => none
  | some u =>
    let pathname := u.pathname
    match lastIndexOfChar pathname.data '.' with
    | none => none
    | some lastDot =>
      if lastDot > 0 ∧ lastDot < pathname.length - 1 then
        let ext := strToLower ⟨pathname.data.drop lastDot⟩
        if ext.length ≤ 6 ∧ extRegexTest ext then some ext else none
      else none

/-- The last label of a dotted string (`topDomain.split('.').pop() || ''`). -/
def lastDotPart (s : String) : String :=
  match (splitDots s).getLast? with
  | some x => x
  | none => ""

/-- Steps 10-13 of `FilterPipeline.filterOne` (index.ts lines 237-275):
keyword include, keyword exclude, `urlParamsOnly`, anti-public. -/
def preDedupTail (F : DomainFns) (opts : PipelineOptions) (url domain : String) :
    Option String :=
  let urlLower := strToLower url
  if opts.keywordInclude ≠ [] ∧
      ¬ opts.keywordInclude.any (fun kw => containsSubstr urlLower (strToLower kw)) then
    some "keyword_not_found"
  else if opts.keywordExclude ≠ [] ∧
      opts.keywordExclude.any (fun kw => containsSubstr urlLower (strToLower kw)) then
    some "keyword_excluded"
  else if opts.urlParamsOnly ∧ (¬ containsSubstr url "?" ∨ ¬ containsSubstr url "=") then
    some "no_params"
  else if opts.antiPublic ∧ F.isPublicDomain domain then
    some "public_domain"
  else none

/-- Steps 1-13 of `FilterPipeline.filterOne` (index.ts lines 147-275): the
first failing step fixes the reject reason; the result carries the reason
(if any) with the extracted domain and registrable domain. -/
def preDedup (F : DomainFns) (opts : PipelineOptions) (url : String) :
    Option String × Option String × Option String :=
  if url = "" then (some "invalid_url", none, none)
  else if url.length < opts.minUrlLength ∨ url.length > opts.maxUrlLength then
    (some "invalid_length", none, none)
  else
    match F.extractDomain url with
    | none => (some "no_domain", none, none)
    | some domain =>
      let topDomain := F.extractTopDomain domain
      let tdStr :=
        match topDomain with
        | some td => td
        | none => ""
      if ¬ F.isValidDomain domain then (some "invalid_domain", some domain, topDomain)
      else if opts.tldWhitelist ≠ [] ∧ topDomain.isSome ∧
          ¬ opts.tldWhitelist.contains (lastDotPart tdStr) then
        (some "tld_not_whitelisted", some domain, topDomain)
      else if opts.tldBlacklist ≠ [] ∧ topDomain.isSome ∧
          opts.tldBlacklist.contains (lastDotPart tdStr) then
        (some "tld_blacklisted", some domain, topDomain)
      else if opts.domainWhitelist ≠ [] ∧
          ¬ opts.domainWhitelist.any (fun pat =>
              F.matchesPattern domain pat ∨ F.matchesPattern tdStr pat) then
        (some "domain_not_whitelisted", some domain, topDomain)
      else if opts.domainBlacklist ≠ [] ∧
          opts.domainBlacklist.any (fun pat =>
              F.matchesPattern domain pat ∨ F.matchesPattern tdStr pat) then
        (some "domain_blacklisted", some domain, topDomain)
      else
        match extractExtension url with
        | some ext =>
          if opts.extensionWhitelist ≠ [] ∧ ¬ opts.extensionWhitelist.contains ext then
            (some "extension_not_whitelisted", some domain, topDomain)
          else if opts.extensionBlacklist.contains ext then
            (some "extension_blacklisted", some domain, topDomain)
          else (preDedupTail F opts url domain, some domain, topDomain)
        | none => (preDedupTail F opts url domain, some domain, topDomain)

/-- `FilterResult` (index.ts lines 74-80). -/
structure FilterResult where
  url : String
  domain : Option String
  topDomain : Option String
  passed : Bool
  reasons : List String
deriving DecidableEq, Repr

/-- The mutable state of one `FilterPipeline` instance. -/
structure PipeState where
  opts : PipelineOptions
  urlDedup : UrlDeduplicator
  domainDedup : DomainDedupState
  statsTotal : Nat
  statsPassed : Nat
  statsFiltered : Nat
  byReason : List (String × Nat)

/-- `addReason` stats bookkeeping (index.ts lines 370-373). -/
def bumpReason (m : List (String × Nat)) (r : String) : List (String × Nat) :=
  match m.find? (fun kv => kv.1 == r) with
  | some _ => m.map (fun kv => if kv.1 == r then (kv.1, kv.2 + 1) else kv)
  | none => m ++ [(r, 1)]

/-- `FilterPipeline.filterOne` (index.ts lines 147-302): steps 1-13
(`preDedup`), then step 14 (deduplication) when `removeDuplicates` is on,
then the stats and domain-set updates. -/
def FilterPipeline.filterOne (F : DomainFns) (h : String → List Nat)
    (st : PipeState) (url : String) : PipeState × FilterResult :=
  let st := { st with statsTotal := st.statsTotal + 1 }
  match preDedup F st.opts url with
  | (some r, domain, topDomain) =>
    let st := { st with byReason := bumpReason st.byReason r }
    let st := { st with statsFiltered := st.statsFiltered + 1 }
    (st, { url := url, domain := domain, topDomain := topDomain
           passed := false, reasons := [r] })
  | (none, domain, topDomain) =>
    let bumpDomain := fun (st : PipeState) =>
      match domain with
      | some dm => { st with domainDedup := st.domainDedup.addDomain dm }
      | none => st
    if st.opts.removeDuplicates then
      match st.urlDedup.add h url with
      | (d2, isNew) =>
        if isNew then
          let st := { st with urlDedup := d2 }
          let st := { st with statsPassed := st.statsPassed + 1 }
          let st := bumpDomain st
          (st, { url := url, domain := domain, topDomain := topDomain
                 passed := true, reasons := [] })
        else
          let st := { st with urlDedup := d2 }
          let st := { st with byReason := bumpReason st.byReason "duplicate" }
          let st := { st with statsFiltered := st.statsFiltered + 1 }
          (st, { url := url, domain := domain, topDomain := topDomain
                 passed := false, reasons := ["duplicate"] })
    else
      let st := { st with statsPassed := st.statsPassed + 1 }
      let st := bumpDomain st
      (st, { url := url, domain := domain, topDomain := topDomain
             passed := true, reasons := [] })

/-- `FilterPipeline.filter` restricted to the sequential `filterOne` calls
(index.ts lines 307-331): thread the state through the URL list, collecting
every `FilterResult`. -/
def pipeRun (F : DomainFns) (h : String → List Nat) :
    PipeState → List String → PipeState × List FilterResult
  | st, [] => (st, [])
  | st, u :: us =>
    let one := FilterPipeline.filterOne F h st u
    let rest := pipeRun F h one.1 us
    (rest.1, one.2 :: rest.2)

/-- The membership fact established by a successful `add`: the key is in
the exact set when one is kept, otherwise all its Bloom bits are set.  This
is exactly the condition under which a later `add` of the same key returns
`false`. -/
def keyRecorded (h : String → List Nat) (d : UrlDeduplicator) (key : String) :
    Prop :=
  match d.exactSet with
  | some es => key ∈ es
  | none => d.bloom.query h key = true

/-! ## Scheduler — `Scheduler` in `src/filter/index.ts` (lines 1437-2030)

Only the scheduler-local update logic that the outcome handlers perform is
modelled: the recent-results ring, the concurrency value and the two
counters.  The queue, engine and timer interactions of the handlers leave
these fields untouched. -/

/-- `SchedulerOptions` (index.ts lines 1495-1517 defaults). -/
structure SchedulerOptions where
  initialConcurrency : Int := 50
  minConcurrency : Int := 10
  maxConcurrency : Int := 200
  adaptiveConcurrency : Bool := true
  targetSuccessRate : ℚ := 90
deriving DecidableEq, Repr

/-- The scheduler fields touched by the outcome handlers (index.ts lines
1527-1533). -/
structure SchedulerSt where
  currentConcurrency : Int
  recentResults : List Bool
  captchaCount : Nat
  blockCount : Nat
deriving DecidableEq, Repr

/-- `Scheduler.recordResult` (index.ts lines 1808-1816): append, keep the
last 100. -/
def SchedulerSt.recordResult (s : SchedulerSt) (success : Bool) : SchedulerSt :=
  let rr := s.recentResults ++ [success]
  let rr := if rr.length > 100 then rr.tail else rr
  { s with recentResults := rr }

/-- `Scheduler.getRecentSuccessRate` (index.ts lines 1821-1828). -/
def SchedulerSt.recentSuccessRate (s : SchedulerSt) : ℚ :=
  if s.recentResults.isEmpty then 100
  else ((s.recentResults.filter (fun b => b)).length : ℚ) / s.recentResults.length * 100

/-- `Scheduler.adjustConcurrency` (index.ts lines 1833-1846). -/
def Scheduler.adjustConcurrency (o : SchedulerOptions) (s : SchedulerSt) :
    SchedulerSt :=
  if s.recentSuccessRate ≥ o.targetSuccessRate + 5 ∧
      s.currentConcurrency < o.maxConcurrency then
    { s with currentConcurrency := min (s.currentConcurrency + 5) o.maxConcurrency }
  else s

/-- `Scheduler.reduceConcurrency` (index.ts lines 1851-1860). -/
def Scheduler.reduceConcurrency (o : SchedulerOptions) (s : SchedulerSt) :
    SchedulerSt :=
  if s.currentConcurrency > o.minConcurrency then
    { s with currentConcurrency := max (s.currentConcurrency - 10) o.minConcurrency }
  else s

/-- `Scheduler.handleResult` (index.ts lines 1719-1739), scheduler-local
part: record a success, then adjust concurrency when adaptive. -/
def Scheduler.handleResult (o : SchedulerOptions) (s : SchedulerSt) : SchedulerSt :=
  let s := s.recordResult true
  if o.adaptiveConcurrency then Scheduler.adjustConcurrency o s else s

/-- `Scheduler.handleError` (index.ts lines 1744-1755), scheduler-local
part for a message with a task ID: record a failure. -/
def Scheduler.handleError (s : SchedulerSt) : SchedulerSt :=
  s.recordResult false

/-- `Scheduler.handleBlocked` (index.ts lines 1760-1775), scheduler-local
part: record a failure, bump `blockCount`, bump `captchaCount` when the
reason is `captcha`, then reduce concurrency when adaptive. -/
def Scheduler.handleBlocked (o : SchedulerOptions) (s : SchedulerSt)
    (reason : String) : SchedulerSt :=
  let s := s.recordResult false
  let s := { s with blockCount := s.blockCount + 1 }
  let s := if reason == "captcha" then { s with captchaCount := s.captchaCount + 1 } else s
  if o.adaptiveConcurrency then Scheduler.reduceConcurrency o s else s

/-- One outcome delivered to the scheduler. -/
inductive SchedEvent
  | result
  | error
  | blocked (reason : String)

/-- Dispatch one outcome to its handler. -/
def schedStep (o : SchedulerOptions) (s : SchedulerSt) : SchedEvent → SchedulerSt
  | .result => Scheduler.handleResult o s
  | .error => Scheduler.handleError s
  | .blocked reason => Scheduler.handleBlocked o s reason

/-- A run of the scheduler over a list of outcomes. -/
def schedRun (o : SchedulerOptions) (s0 : SchedulerSt) (events : List SchedEvent) :
    SchedulerSt :=
  events.foldl (schedStep o) s0

/-- `Scheduler.reset` (index.ts lines 1894-1904), scheduler-local part:
counters cleared, concurrency back to the initial value. -/
def Scheduler.resetState (o : SchedulerOptions) : SchedulerSt :=
  { currentConcurrency := o.initialConcurrency, recentResults := []
    captchaCount := 0, blockCount := 0 }

/-! ## Concrete instances used by witnesses and counterexamples -/

/-- A fresh pool with the default configuration (`MaxFailures` 5). -/
def c1Pool0 : Pool := Pool.new defaultPoolConfig

/-- The proxy of pool scenario S1. -/
def c1Proxy : Proxy := { id := "test_1", host := "192.168.1.1", port := "8080" }

/-- Five failure-report times. -/
def c1Times : List ℚ := [1, 2, 3, 4, 5]

/-- The pool after `AddProxy` of `c1Proxy`. -/
def c1Pool1 : Pool :=
  { c1Pool0 with
      proxies := [("test_1", { c1Proxy with status := ProxyStatus.alive })]
      alive := ["test_1"] }

/-- Domain helpers for the C4 witness instance: every URL maps to domain
`d` with registrable domain `t`, nothing matches patterns, nothing is
public. -/
def c4F : DomainFns :=
  { extractDomain := fun _ => some "d"
    extractTopDomain := fun _ => some "t"
    isValidDomain := fun _ => true
    matchesPattern := fun _ _ => false
    isPublicDomain := fun _ => false }

/-- A one-bit hash family for the C4 witness instance. -/
def c4h : String → List Nat := fun _ => [0]

/-- Pipeline options for the C4 witness instance: dedup on, no gates. -/
def c4Opts : PipelineOptions :=
  { removeDuplicates := true, domainWhitelist := [], domainBlacklist := []
    tldWhitelist := [], tldBlacklist := [], urlParamsOnly := false
    minUrlLength := 0, maxUrlLength := 2000, keywordInclude := []
    keywordExclude := [], antiPublic := false, extensionWhitelist := []
    extensionBlacklist := [".jpg"] }

/-- A fresh exact-mode deduplicator (Bloom only, no exact set). -/
def c4Dedup : UrlDeduplicator :=
  { bloom := ⟨[]⟩, exactSet := none
    opts := { mode := DedupMode.exact, normalizeUrls := true
              removeTrackingParams := true, caseSensitive := false }
    count := 0 }

/-- A fresh pipeline state for the C4 witness instance. -/
def c4State : PipeState :=
  { opts := c4Opts, urlDedup := c4Dedup, domainDedup := ⟨[], []⟩
    statsTotal := 0, statsPassed := 0, statsFiltered := 0, byReason := [] }

/-- The result the pipeline emits for the first `http://a`. -/
def c4Res0 : FilterResult :=
  { url := "http://a", domain := some "d", topDomain := some "t"
    passed := true, reasons := [] }

/-- The result the pipeline emits for the second `http://a`. -/
def c4Res1 : FilterResult :=
  { url := "http://a", domain := some "d", topDomain := some "t"
    passed := false, reasons := ["duplicate"] }

/-- The dedup options the `FilterPipeline` constructor passes (index.ts
lines 113-118): `normalized` mode, normalization and tracking-parameter
removal on, case-insensitive. -/
def pipelineDedupOptions : DedupOptions :=
  { mode := DedupMode.normalized, normalizeUrls := true
    removeTrackingParams := true, caseSensitive := false }

/-- A Google engine with one configured exclude-domain entry. -/
def c6Google : Google := { excludeDomains := ["example.com"] }

/-! ## Theorems

Helper lemmas first, then one theorem per claim (with witnesses and
counterexamples where required). -/

theorem list_find?_append_some {α} {p : α → Bool} {l₁ l₂ : List α} {a : α}
    (h : l₁.find? p = some a) : (l₁ ++ l₂).find? p = some a := by
  induction l₁ with
  | nil => simp [List.find?] at h
  | cons x t ih =>
    rw [List.cons_append]
    cases hx : p x with
    | true =>
      simp [List.find?, hx] at h ⊢
      exact h
    | false =>
      simp only [List.find?, hx] at h ⊢
      exact ih h

theorem list_find?_append_none {α} {p : α → Bool} {l₁ l₂ : List α}
    (h : l₁.find? p = none) : (l₁ ++ l₂).find? p = l₂.find? p := by
  induction l₁ with
  | nil => simp
  | cons x t ih =>
    rw [List.cons_append]
    cases hx : p x with
    | true => simp [List.find?, hx] at h
    | false =>
      simp only [List.find?, hx] at h ⊢
      exact ih h

theorem find?_setEntries_self (l : List (String × Proxy)) (id : String) (px : Proxy) :
    ((setEntries l id px).find? (fun e => e.1 == id)) =
      ((l.find? (fun e => e.1 == id)).map (fun _ => (id, px))) := by
  induction l with
  | nil => rfl
  | cons e t ih =>
    by_cases he : (e.1 == id) = true
    · have he' : e.1 = id := by simpa using he
      rw [setEntries]
      simp [List.find?, he, he']
    · have he2 : (e.1 == id) = false := by simpa using he
      rw [setEntries]
      simp only [he2, Bool.false_eq_true, if_false, List.find?]
      exact ih

theorem find?_setEntries_ne (l : List (String × Proxy)) (id id' : String) (px : Proxy)
    (h : id' ≠ id) :
    ((setEntries l id px).find? (fun e => e.1 == id')) =
      (l.find? (fun e => e.1 == id')) := by
  induction l with
  | nil => rfl
  | cons e t ih =>
    by_cases he : (e.1 == id) = true
    · have he' : e.1 = id := by simpa using he
      have hne : (e.1 == id') = false := by
        simp only [beq_eq_false_iff_ne, ne_eq, he']
        exact fun hh => h hh.symm
      rw [setEntries]
      simp only [he, if_true, List.find?, hne]
      exact ih
    · have he2 : (e.1 == id) = false := by simpa using he
      rw [setEntries]
      simp only [he2, Bool.false_eq_true, if_false, List.find?]
      cases hp : (e.1 == id') with
      | true => rfl
      | false => exact ih

theorem Pool.find?_setProxy_self (p : Pool) (id : String) (px : Proxy)
    (h : (p.find? id).isSome) : (p.setProxy id px).find? id = some px := by
  unfold Pool.find? Pool.setProxy at *
  rw [find?_setEntries_self]
  cases hf : p.proxies.find? (fun e => e.1 == id) with
  | none => rw [hf] at h; simp at h
  | some e => simp

theorem Pool.find?_setProxy_ne (p : Pool) (id id' : String) (px : Proxy)
    (h : id' ≠ id) : (p.setProxy id px).find? id' = p.find? id' := by
  unfold Pool.find? Pool.setProxy
  rw [find?_setEntries_ne _ _ _ _ h]

theorem Pool.find?_setProxy_isSome (p : Pool) (id id' : String) (px : Proxy) :
    ((p.setProxy id px).find? id').isSome = (p.find? id').isSome := by
  by_cases h : id' = id
  · subst h
    unfold Pool.find? Pool.setProxy
    rw [find?_setEntries_self]
    cases p.proxies.find? (fun e => e.1 == id') <;> simp
  · rw [Pool.find?_setProxy_ne _ _ _ _ h]

theorem Proxy.id_recordFail (px : Proxy) : px.recordFail.id = px.id := rfl

theorem Proxy.id_recordSuccess (px : Proxy) (lat : ℚ) :
    (px.recordSuccess lat).id = px.id := rfl

theorem Proxy.id_recordCaptcha (px : Proxy) : px.recordCaptcha.id = px.id := rfl

theorem Proxy.id_setCooldown (px : Proxy) (now dur : ℚ) :
    (px.setCooldown now dur).id = px.id := rfl

theorem mem_setEntries {l : List (String × Proxy)} {id : String} {px : Proxy}
    {e : String × Proxy} (he : e ∈ setEntries l id px) :
    e ∈ l ∨ (e.1 = id ∧ e.2 = px) := by
  induction l with
  | nil => simp [setEntries] at he
  | cons x t ih =>
    rw [setEntries] at he
    by_cases hx : (x.1 == id) = true
    · simp only [hx, if_true, List.mem_cons] at he
      rcases he with he | he
      · right
        constructor
        · rw [he]
          simpa using hx
        · rw [he]
      · rcases ih he with h1 | h2
        · exact Or.inl (List.mem_cons_of_mem _ h1)
        · exact Or.inr h2
    · have hx2 : (x.1 == id) = false := by simpa using hx
      simp only [hx2, Bool.false_eq_true, if_false, List.mem_cons] at he
      rcases he with he | he
      · exact Or.inl (by simp [he])
      · rcases ih he with h1 | h2
        · exact Or.inl (List.mem_cons_of_mem _ h1)
        · exact Or.inr h2

theorem idConsistent_find? {p : Pool} {a : String} {q : Proxy}
    (hc : idConsistent p) (h : p.find? a = some q) : q.id = a := by
  unfold Pool.find? at h
  cases hf : p.proxies.find? (fun e => e.1 == a) with
  | none => rw [hf] at h; simp at h
  | some e =>
    rw [hf] at h
    have h' : e.2 = q := by simpa using h
    have hmem : e ∈ p.proxies := List.mem_of_find?_eq_some hf
    have hpred := List.find?_some hf
    have h1 : e.1 = a := by simpa using hpred
    have h2 : e.2.id = e.1 := hc e hmem
    rw [← h', h2, h1]

theorem idConsistent_setProxy {p : Pool} {id : String} {px : Proxy}
    (hc : idConsistent p) (hid : px.id = id) : idConsistent (p.setProxy id px) := by
  intro e he
  rcases mem_setEntries he with h1 | h2
  · exact hc e h1
  · rw [h2.2, h2.1, hid]

theorem Pool.get_fst (p : Pool) (now u : ℚ) :
    (p.get now u).1 = { p with totalRotations := p.totalRotations + 1 } := by
  unfold Pool.get
  dsimp only
  split
  · rfl
  · split <;> rfl

theorem quarantineInv_setFields {p p' : Pool} {id0 : String}
    (h : quarantineInv p id0) (halive : p'.alive = p.alive)
    (hprox : p'.proxies = p.proxies) : quarantineInv p' id0 := by
  refine ⟨?_, ?_, ?_⟩
  · rw [halive]; exact h.1
  · show (p'.find? id0).isSome
    unfold Pool.find?
    rw [hprox]
    exact h.2.1
  · intro e he
    rw [hprox] at he
    exact h.2.2 e he

theorem quarantineInv_setProxy {p : Pool} {id0 id : String} {px : Proxy}
    (h : quarantineInv p id0) (hid : px.id = id) :
    quarantineInv (p.setProxy id px) id0 := by
  refine ⟨h.1, ?_, idConsistent_setProxy h.2.2 hid⟩
  rw [Pool.find?_setProxy_isSome]
  exact h.2.1

theorem quarantineInv_quarantineProxy {p : Pool} {id0 : String} (id : String)
    (now : ℚ) (h : quarantineInv p id0) :
    quarantineInv (p.quarantineProxy id now) id0 := by
  unfold Pool.quarantineProxy
  cases hf : p.find? id with
  | none => exact h
  | some px =>
    have hid : px.id = id := idConsistent_find? h.2.2 hf
    have h2 := @quarantineInv_setProxy p id0 id
      (Proxy.setCooldown { px with status := ProxyStatus.quarantined }
        now p.config.quarantineDuration) h (by simp [Proxy.setCooldown, hid])
    refine ⟨?_, h2.2.1, h2.2.2⟩
    intro hmem
    exact h2.1 (List.mem_of_mem_erase hmem)

theorem quarantineInv_reportSuccess {p : Pool} {id0 : String} (id : String)
    (lat : ℚ) (h : quarantineInv p id0) :
    quarantineInv (p.reportSuccess id lat) id0 := by
  unfold Pool.reportSuccess
  cases hf : p.find? id with
  | none => exact h
  | some px =>
    have hid : px.id = id := idConsistent_find? h.2.2 hf
    exact quarantineInv_setFields
      (quarantineInv_setProxy h (by simp [Proxy.recordSuccess, hid])) rfl rfl

theorem quarantineInv_reportFailure {p : Pool} {id0 : String} (id : String)
    (now : ℚ) (h : quarantineInv p id0) :
    quarantineInv (p.reportFailure id now) id0 := by
  unfold Pool.reportFailure
  cases hf : p.find? id with
  | none => exact h
  | some px =>
    have hid : px.id = id := idConsistent_find? h.2.2 hf
    have h2 := @quarantineInv_setProxy p id0 id px.recordFail h
      (by simp [Proxy.recordFail, hid])
    dsimp only
    split
    · exact quarantineInv_quarantineProxy id now (quarantineInv_setFields h2 rfl rfl)
    · exact quarantineInv_setFields h2 rfl rfl

theorem quarantineInv_reportCaptcha {p : Pool} {id0 : String} (id : String)
    (now : ℚ) (h : quarantineInv p id0) :
    quarantineInv (p.reportCaptcha id now) id0 := by
  unfold Pool.reportCaptcha
  cases hf : p.find? id with
  | none => exact h
  | some px =>
    have hid : px.id = id := idConsistent_find? h.2.2 hf
    exact quarantineInv_setProxy h
      (by simp [Proxy.recordCaptcha, Proxy.setCooldown, hid])

theorem quarantineInv_reportBlock {p : Pool} {id0 : String} (id : String)
    (now : ℚ) (h : quarantineInv p id0) :
    quarantineInv (p.reportBlock id now) id0 := by
  unfold Pool.reportBlock
  cases hf : p.find? id with
  | none => exact h
  | some px => exact quarantineInv_quarantineProxy id now h

theorem quarantineInv_addProxy {p : Pool} {id0 : String} (px : Proxy)
    (h : quarantineInv p id0) :
    quarantineInv (match p.addProxy px with | .ok q => q | .error _ => p) id0 := by
  cases hf : p.find? px.id with
  | some q =>
    have hre : p.addProxy px = .error ("proxy " ++ px.id ++ " already exists") := by
      unfold Pool.addProxy
      rw [hf]
    rw [hre]
    exact h
  | none =>
    have hrk : p.addProxy px =
        .ok { p with
                proxies := p.proxies ++ [(px.id, { px with status := ProxyStatus.alive })]
                alive := p.alive ++ [px.id] } := by
      unfold Pool.addProxy
      rw [hf]
    rw [hrk]
    refine ⟨?_, ?_, ?_⟩
    · intro hmem
      rcases List.mem_append.mp hmem with h1 | h2
      · exact h.1 h1
      · have heq : id0 = px.id := by simpa using h2
        rw [heq] at h
        have h3 := h.2.1
        rw [hf] at h3
        simp at h3
    · rcases Option.isSome_iff_exists.mp h.2.1 with ⟨q, hq⟩
      unfold Pool.find? at hq ⊢
      cases hfe : p.proxies.find? (fun e => e.1 == id0) with
      | none => rw [hfe] at hq; simp at hq
      | some e =>
        rw [list_find?_append_some hfe]
        simp
    · intro e he
      rcases List.mem_append.mp he with h1 | h2
      · exact h.2.2 e h1
      · have heq : e = (px.id, { px with status := ProxyStatus.alive }) := by
          simpa using h2
        rw [heq]

theorem quarantineInv_applyOp {p : Pool} {id0 : String} (op : PoolOp)
    (h : quarantineInv p id0) : quarantineInv (p.applyOp op) id0 := by
  cases op with
  | get now u =>
    show quarantineInv (p.get now u).1 id0
    rw [Pool.get_fst]
    exact quarantineInv_setFields h rfl rfl
  | reportSuccess id lat => exact quarantineInv_reportSuccess id lat h
  | reportFailure id now => exact quarantineInv_reportFailure id now h
  | reportCaptcha id now => exact quarantineInv_reportCaptcha id now h
  | reportBlock id now => exact quarantineInv_reportBlock id now h
  | addProxy px => exact quarantineInv_addProxy px h

theorem quarantineInv_applyOps {p : Pool} {id0 : String} (ops : List PoolOp)
    (h : quarantineInv p id0) : quarantineInv (p.applyOps ops) id0 := by
  induction ops generalizing p with
  | nil => exact h
  | cons op t ih => exact ih (quarantineInv_applyOp op h)

theorem scanCumulative_mem {r : ℚ} {l : List Proxy} {px : Proxy} :
    ∀ {c : ℚ}, scanCumulative r c l = some px → px ∈ l := by
  induction l with
  | nil => intro c h; simp [scanCumulative] at h
  | cons x t ih =>
    intro c h
    rw [scanCumulative] at h
    by_cases hle : r ≤ c + proxyWeight x
    · rw [if_pos hle] at h
      have : x = px := by simpa using h
      rw [← this]
      exact List.mem_cons_self x t
    · rw [if_neg hle] at h
      exact List.mem_cons_of_mem x (ih h)

theorem weightedSelect_mem {l : List Proxy} {u : ℚ} {px : Proxy}
    (h : Pool.weightedSelect l u = some px) : px ∈ l := by
  cases l with
  | nil => simp [Pool.weightedSelect] at h
  | cons a t =>
    cases t with
    | nil =>
      have : a = px := by simpa [Pool.weightedSelect] using h
      rw [← this]
      exact List.mem_cons_self a []
    | cons b t2 =>
      unfold Pool.weightedSelect at h
      have h2 : (match scanCumulative (u * ((a :: b :: t2).map proxyWeight).sum) 0
          (a :: b :: t2) with
        | some q => some q
        | none => (a :: b :: t2).getLast?) = some px := h
      cases hs : scanCumulative (u * ((a :: b :: t2).map proxyWeight).sum) 0 (a :: b :: t2) with
      | some q =>
        rw [hs] at h2
        have : q = px := by simpa using h2
        rw [← this]
        exact scanCumulative_mem hs
      | none =>
        rw [hs] at h2
        have hopt : px ∈ (a :: b :: t2).getLast? := by
          rw [Option.mem_def]
          simpa using h2
        obtain ⟨hne, heq⟩ := List.mem_getLast?_eq_getLast hopt
        rw [heq]
        exact List.getLast_mem hne

theorem mem_availableProxies {p : Pool} {now : ℚ} {px : Proxy}
    (h : px ∈ p.availableProxies now) : ∃ a, a ∈ p.alive ∧ p.find? a = some px := by
  unfold Pool.availableProxies at h
  have h1 := List.mem_of_mem_filter h
  exact List.mem_filterMap.mp h1

theorem get_ok_mem {p : Pool} {now u : ℚ} {px : Proxy}
    (h : (p.get now u).2 = .ok px) : px ∈ p.availableProxies now := by
  unfold Pool.get at h
  dsimp only at h
  split at h
  · simp at h
  · cases hs : Pool.weightedSelect
        (Pool.availableProxies { p with totalRotations := p.totalRotations + 1 } now) u with
    | some q =>
      rw [hs] at h
      have : q = px := by simpa using h
      rw [← this]
      exact weightedSelect_mem hs
    | none => rw [hs] at h; simp at h

theorem get_avoids_missing {p : Pool} {id0 : String}
    (hinv : quarantineInv p id0) :
    ∀ (now u : ℚ) (px : Proxy), (p.get now u).2 = .ok px → px.id ≠ id0 := by
  intro now u px h
  obtain ⟨a, ha, hfa⟩ := mem_availableProxies (get_ok_mem h)
  have hpa : px.id = a := idConsistent_find? hinv.2.2 hfa
  rw [hpa]
  intro heq
  rw [heq] at ha
  exact hinv.1 ha

theorem foldFailures (id : String) :
    ∀ (ts : List ℚ) (p : Pool) (q : Proxy),
      p.find? id = some q →
      idConsistent p →
      ((q.failCount : Int) + ts.length < p.config.maxFailures) →
      (∃ q', (failStreak p id ts).find? id = some q' ∧
          q'.failCount = q.failCount + ts.length ∧ q'.status = q.status) ∧
      (failStreak p id ts).alive = p.alive ∧
      (failStreak p id ts).quarantine = p.quarantine ∧
      (failStreak p id ts).config = p.config ∧
      idConsistent (failStreak p id ts) := by
  intro ts
  induction ts with
  | nil =>
    intro p q hf hc _
    exact ⟨⟨q, hf, by simp, rfl⟩, rfl, rfl, rfl, hc⟩
  | cons t ts' ih =>
    intro p q hf hc hb
    have hid : q.id = id := idConsistent_find? hc hf
    have hlen : ((t :: ts').length : Int) = (ts'.length : Int) + 1 := by
      simp
    have hcond : ¬ ((q.recordFail.failCount : Int) ≥
        (p.setProxy id q.recordFail).config.maxFailures) := by
      show ¬ ((q.recordFail.failCount : Int) ≥ p.config.maxFailures)
      simp only [Proxy.recordFail]
      rw [hlen] at hb
      push_cast
      omega
    have hstep : p.reportFailure id t =
        { p.setProxy id q.recordFail with
            totalRequests := (p.setProxy id q.recordFail).totalRequests + 1 } := by
      unfold Pool.reportFailure
      rw [hf]
      dsimp only
      rw [if_neg hcond]
    have hf1 : (p.reportFailure id t).find? id = some q.recordFail := by
      rw [hstep]
      show (Pool.setProxy p id q.recordFail).find? id = some q.recordFail
      exact Pool.find?_setProxy_self p id q.recordFail (by rw [hf]; rfl)
    have hc1 : idConsistent (p.reportFailure id t) := by
      rw [hstep]
      intro e he
      exact idConsistent_setProxy hc (by simp [Proxy.recordFail, hid]) e he
    have hcfg1 : (p.reportFailure id t).config = p.config := by
      rw [hstep]
      rfl
    have hb1 : ((q.recordFail.failCount : Int) + ts'.length <
        (p.reportFailure id t).config.maxFailures) := by
      rw [hcfg1]
      simp only [Proxy.recordFail]
      rw [hlen] at hb
      push_cast
      omega
    obtain ⟨⟨q', hfq', hfc, hst⟩, ha, hqq, hcf, hcn⟩ :=
      ih (p.reportFailure id t) q.recordFail hf1 hc1 hb1
    have hfold : failStreak p id (t :: ts') = failStreak (p.reportFailure id t) id ts' := rfl
    rw [hfold]
    refine ⟨⟨q', hfq', ?_, ?_⟩, ?_, ?_, ?_, hcn⟩
    · rw [hfc]
      simp only [Proxy.recordFail, List.length_cons]
      omega
    · exact hst
    · rw [ha, hstep]
      rfl
    · rw [hqq, hstep]
      rfl
    · rw [hcf, hcfg1]

/-- C1.  Adding a fresh proxy to the pool and reporting it failed exactly
`MaxFailures` times consecutively quarantines it: the stored record carries
status quarantined, the alive bucket shrinks by one, the quarantine bucket
grows by one, and after any further sequence of pool API operations (`Get`,
reports, `AddProxy` — everything except the health-check revive) no `Get`
returns a proxy with that ID. -/
theorem C1_quarantine_after_max_failures
    (p0 p1 : Pool) (px : Proxy) (ts : List ℚ)
    (hfresh : p0.find? px.id = none)
    (halive : px.id ∉ p0.alive)
    (hcons : idConsistent p0)
    (hzero : px.failCount = 0)
    (hmax : 1 ≤ p0.config.maxFailures)
    (hlen : (ts.length : Int) = p0.config.maxFailures)
    (hadd : p0.addProxy px = .ok p1) :
    ((failStreak p1 px.id ts).find? px.id).map Proxy.status
        = some ProxyStatus.quarantined ∧
    (failStreak p1 px.id ts).alive.length + 1 = p1.alive.length ∧
    (failStreak p1 px.id ts).quarantine.length = p1.quarantine.length + 1 ∧
    ∀ ops : List PoolOp,
      px.id ∉ ((failStreak p1 px.id ts).applyOps ops).alive ∧
      ∀ (now u : ℚ) (q : Proxy),
        (((failStreak p1 px.id ts).applyOps ops).get now u).2 = .ok q →
        q.id ≠ px.id := by
  -- the added pool, explicitly
  have hp1 : p1 = { p0 with
      proxies := p0.proxies ++ [(px.id, { px with status := ProxyStatus.alive })]
      alive := p0.alive ++ [px.id] } := by
    unfold Pool.addProxy at hadd
    rw [hfresh] at hadd
    have := (by simpa using hadd :
      ({ p0 with
          proxies := p0.proxies ++ [(px.id, { px with status := ProxyStatus.alive })]
          alive := p0.alive ++ [px.id] } : Pool) = p1)
    exact this.symm
  subst hp1
  have hfindNone : p0.proxies.find? (fun e => e.1 == px.id) = none := by
    have := hfresh
    unfold Pool.find? at this
    exact Option.map_eq_none'.mp this
  have hfind1 : (Pool.find? { p0 with
      proxies := p0.proxies ++ [(px.id, { px with status := ProxyStatus.alive })]
      alive := p0.alive ++ [px.id] } px.id) =
      some { px with status := ProxyStatus.alive } := by
    unfold Pool.find?
    rw [list_find?_append_none hfindNone]
    simp [List.find?]
  have hcons1 : idConsistent { p0 with
      proxies := p0.proxies ++ [(px.id, { px with status := ProxyStatus.alive })]
      alive := p0.alive ++ [px.id] } := by
    intro e he
    rcases List.mem_append.mp he with h1 | h2
    · exact hcons e h1
    · have heq : e = (px.id, { px with status := ProxyStatus.alive }) := by simpa using h2
      rw [heq]
  have hne : ts ≠ [] := by
    intro h
    rw [h] at hlen
    simp at hlen
    omega
  have htslen : 1 ≤ ts.length := by
    cases ts with
    | nil => exact absurd rfl hne
    | cons a b => simp
  have hdecomp : ts.dropLast ++ [ts.getLast hne] = ts := List.dropLast_append_getLast hne
  have hdllen : (ts.dropLast.length : Int) + 1 = p0.config.maxFailures := by
    rw [List.length_dropLast]
    rw [← hlen]
    omega
  have hbound : (((px.failCount : Nat) : Int) + ts.dropLast.length <
      (p0.config).maxFailures) := by
    rw [hzero]
    push_cast
    omega
  obtain ⟨⟨qm, hfqm, hfcm, hstm⟩, ham, hqm, hcfm, hcnm⟩ :=
    foldFailures px.id ts.dropLast _ { px with status := ProxyStatus.alive } hfind1 hcons1
      (by simpa using hbound)
  have hqmid : qm.id = px.id := idConsistent_find? hcnm hfqm
  have hfold : failStreak { p0 with
      proxies := p0.proxies ++ [(px.id, { px with status := ProxyStatus.alive })]
      alive := p0.alive ++ [px.id] } px.id ts =
      (failStreak { p0 with
        proxies := p0.proxies ++ [(px.id, { px with status := ProxyStatus.alive })]
        alive := p0.alive ++ [px.id] } px.id ts.dropLast).reportFailure px.id
        (ts.getLast hne) := by
    conv_lhs => rw [← hdecomp]
    unfold failStreak
    rw [List.foldl_append]
    rfl
  set P1 : Pool := { p0 with
      proxies := p0.proxies ++ [(px.id, { px with status := ProxyStatus.alive })]
      alive := p0.alive ++ [px.id] } with hP1
  set pm := failStreak P1 px.id ts.dropLast with hpm
  have hfc0 : qm.failCount = ts.dropLast.length := by
    rw [hfcm]
    show px.failCount + ts.dropLast.length = ts.dropLast.length
    rw [hzero]
    omega
  have hcondKO : ((qm.recordFail.failCount : Int) ≥
      (pm.setProxy px.id qm.recordFail).config.maxFailures) := by
    show ((qm.recordFail.failCount : Int) ≥ pm.config.maxFailures)
    rw [hcfm]
    show ((qm.failCount + 1 : Nat) : Int) ≥ p0.config.maxFailures
    rw [hfc0]
    push_cast
    omega
  have hstep : pm.reportFailure px.id (ts.getLast hne) =
      Pool.quarantineProxy
        { pm.setProxy px.id qm.recordFail with
            totalRequests := (pm.setProxy px.id qm.recordFail).totalRequests + 1 }
        px.id (ts.getLast hne) := by
    unfold Pool.reportFailure
    rw [hfqm]
    dsimp only
    rw [if_pos hcondKO]
  have hfbump : (Pool.find? { pm.setProxy px.id qm.recordFail with
      totalRequests := (pm.setProxy px.id qm.recordFail).totalRequests + 1 } px.id) =
      some qm.recordFail := by
    show (pm.setProxy px.id qm.recordFail).find? px.id = some qm.recordFail
    exact Pool.find?_setProxy_self pm px.id qm.recordFail (by rw [hfqm]; rfl)
  set qF := Proxy.setCooldown { qm.recordFail with status := ProxyStatus.quarantined }
    (ts.getLast hne) pm.config.quarantineDuration with hqF
  set pb : Pool := { pm.setProxy px.id qm.recordFail with
      totalRequests := (pm.setProxy px.id qm.recordFail).totalRequests + 1 } with hpb
  set ps := pb.setProxy px.id qF with hps
  set pk : Pool := { ps with alive := ps.alive.erase px.id
                             quarantine := ps.quarantine ++ [px.id] } with hpk
  have hq2 : Pool.quarantineProxy pb px.id (ts.getLast hne) = pk := by
    unfold Pool.quarantineProxy
    rw [hfbump]
    rfl
  have hkey : failStreak P1 px.id ts = pk := by
    rw [hfold, hstep]
    exact hq2
  rw [hkey]
  have hfinal : pk.find? px.id = some qF := by
    show ps.find? px.id = some qF
    exact Pool.find?_setProxy_self pb px.id qF (by rw [hfbump]; rfl)
  have hpsalive : ps.alive = P1.alive := by
    show pm.alive = P1.alive
    exact ham
  have hpsquar : ps.quarantine = P1.quarantine := by
    show pm.quarantine = P1.quarantine
    exact hqm
  have halive2 : pk.alive = p0.alive := by
    show ps.alive.erase px.id = p0.alive
    rw [hpsalive]
    show (p0.alive ++ [px.id]).erase px.id = p0.alive
    rw [List.erase_append_right _ halive]
    simp
  have hinv : quarantineInv pk px.id := by
    refine ⟨?_, ?_, ?_⟩
    · rw [halive2]
      exact halive
    · rw [hfinal]
      rfl
    · have hcps : idConsistent ps := by
        intro e he
        have hcpb : idConsistent pb := by
          intro e2 he2
          exact idConsistent_setProxy hcnm (by simp [Proxy.recordFail, hqmid]) e2 he2
        exact idConsistent_setProxy hcpb
          (by simp [hqF, Proxy.setCooldown, Proxy.recordFail, hqmid]) e he
      intro e he
      exact hcps e he
  refine ⟨?_, ?_, ?_, ?_⟩
  · rw [hfinal]
    rfl
  · rw [halive2]
    show p0.alive.length + 1 = (p0.alive ++ [px.id]).length
    simp
  · have hpkq : pk.quarantine = ps.quarantine ++ [px.id] := rfl
    rw [hpkq, hpsquar]
    show (p0.quarantine ++ [px.id]).length = p0.quarantine.length + 1
    simp
  · intro ops
    have hops := quarantineInv_applyOps ops hinv
    exact ⟨hops.1, fun now u q hq => get_avoids_missing hops now u q hq⟩

/-- Witness for C1 at the scenario-S1 instance: default config, one fresh
proxy, five consecutive failure reports. -/
theorem C1_quarantine_after_max_failures_witness :
    ((failStreak c1Pool1 "test_1" c1Times).find? "test_1").map Proxy.status
        = some ProxyStatus.quarantined ∧
    (failStreak c1Pool1 "test_1" c1Times).alive.length + 1 = c1Pool1.alive.length ∧
    (failStreak c1Pool1 "test_1" c1Times).quarantine.length =
      c1Pool1.quarantine.length + 1 ∧
    "test_1" ∉ ((failStreak c1Pool1 "test_1" c1Times).applyOps
      [PoolOp.get 7 (1 / 2)]).alive := by
  have h := C1_quarantine_after_max_failures c1Pool0 c1Pool1 c1Proxy c1Times
    rfl
    (by intro hm; simp [c1Pool0, Pool.new] at hm)
    (by intro e he; simp [c1Pool0, Pool.new] at he)
    rfl
    (by decide)
    (by decide)
    rfl
  exact ⟨h.1, h.2.1, h.2.2.1, (h.2.2.2 [PoolOp.get 7 (1 / 2)]).1⟩

theorem proxyWeight_eq_specWeight (px : Proxy) : proxyWeight px = specWeight px := by
  unfold proxyWeight specWeight
  by_cases ht : px.totalRequests > 0 <;> by_cases hl : px.avgLatency > 5 <;>
    simp [ht, hl] <;> ring

theorem scanl_head_tail (b : ℚ) (ws : List ℚ) :
    List.scanl (· + ·) b ws = b :: (List.scanl (· + ·) b ws).tail := by
  cases ws <;> simp [List.scanl]

theorem scanCumulative_eq_spec (r : ℚ) (l : List Proxy) :
    ∀ c : ℚ, scanCumulative r c l =
      ((l.zip (((l.map specWeight).scanl (· + ·) c).tail)).find?
        (fun pc => decide (r ≤ pc.2))).map (·.1) := by
  induction l with
  | nil => intro c; rfl
  | cons x t ih =>
    intro c
    rw [scanCumulative, List.map_cons, List.scanl_cons, List.singleton_append,
      List.tail_cons]
    rw [scanl_head_tail (c + specWeight x) (t.map specWeight), List.zip_cons_cons]
    by_cases hle : r ≤ c + specWeight x
    · rw [if_pos (by rw [proxyWeight_eq_specWeight]; exact hle)]
      simp [List.find?, hle]
    · rw [if_neg (by rw [proxyWeight_eq_specWeight]; exact hle)]
      have hfind : (((x, c + specWeight x) :: t.zip
          ((List.scanl (· + ·) (c + specWeight x) (t.map specWeight)).tail)).find?
          (fun pc => decide (r ≤ pc.2))) =
          ((t.zip ((List.scanl (· + ·) (c + specWeight x) (t.map specWeight)).tail)).find?
          (fun pc => decide (r ≤ pc.2))) := by
        simp [List.find?, hle]
      rw [hfind, proxyWeight_eq_specWeight]
      exact ih (c + specWeight x)

theorem map_proxyWeight_eq (l : List Proxy) : l.map proxyWeight = l.map specWeight := by
  induction l with
  | nil => rfl
  | cons a t ih => simp [proxyWeight_eq_specWeight, ih]

theorem weightedSelect_eq_specSelect (l : List Proxy) (u : ℚ) :
    Pool.weightedSelect l u = specSelect l u := by
  cases l with
  | nil => rfl
  | cons a t =>
    cases t with
    | nil =>
      show some a = specSelect [a] u
      unfold specSelect
      dsimp only
      by_cases hle : u * specWeight a ≤ specWeight a
      · simp [List.scanl, List.find?, hle]
      · simp [List.scanl, List.find?, hle]
    | cons b t2 =>
      have hL : Pool.weightedSelect (a :: b :: t2) u =
          (match scanCumulative (u * ((a :: b :: t2).map proxyWeight).sum) 0
              (a :: b :: t2) with
          | some px => some px
          | none => (a :: b :: t2).getLast?) := rfl
      have hR : specSelect (a :: b :: t2) u =
          (match (((a :: b :: t2).zip
              ((((a :: b :: t2).map specWeight).scanl (· + ·) 0).tail)).find?
              (fun pc => decide (u * ((a :: b :: t2).map specWeight).sum ≤ pc.2))) with
          | some pc => some pc.1
          | none => (a :: b :: t2).getLast?) := rfl
      rw [hL, hR, map_proxyWeight_eq, scanCumulative_eq_spec]
      cases hv : (((a :: b :: t2).zip
          ((((a :: b :: t2).map specWeight).scanl (· + ·) 0).tail)).find?
          (fun pc => decide (u * ((a :: b :: t2).map specWeight).sum ≤ pc.2))) with
      | some pc => rfl
      | none => rfl

/-- C2.  `Pool.Get` implements exactly the spec selection: with the uniform
draw `u` as the random source, its result is the candidate chosen by
`specSelect` — weights `1 + 2·s` (success rate `s ∈ [0,1]`, 0 without
observed requests) halved above 5 s average latency, one linear scan of the
cumulative weights against the draw scaled to the total, last candidate as
fallback — over the alive-and-off-cooldown candidates, and the
no-available-proxies error exactly when no candidate exists. -/
theorem C2_get_weighted_selection (p : Pool) (now u : ℚ) :
    ((p.get now u).2 =
      match specSelect (p.availableProxies now) u with
      | some px => Except.ok px
      | none => Except.error "no available proxies") ∧
    (p.availableProxies now = [] →
      (p.get now u).2 = Except.error "no available proxies") := by
  constructor
  · unfold Pool.get
    dsimp only
    by_cases he : (Pool.availableProxies { p with
        totalRotations := p.totalRotations + 1 } now).isEmpty
    · rw [if_pos he]
      have hnil : Pool.availableProxies { p with
          totalRotations := p.totalRotations + 1 } now = [] := by
        simpa using he
      have hnil' : p.availableProxies now = [] := hnil
      rw [hnil']
      rfl
    · rw [if_neg he]
      have hws : Pool.weightedSelect (Pool.availableProxies { p with
          totalRotations := p.totalRotations + 1 } now) u =
          specSelect (p.availableProxies now) u :=
        weightedSelect_eq_specSelect _ u
      rw [hws]
      cases specSelect (p.availableProxies now) u <;> rfl
  · intro hnil
    unfold Pool.get
    dsimp only
    have he : (Pool.availableProxies { p with
        totalRotations := p.totalRotations + 1 } now).isEmpty := by
      have : Pool.availableProxies { p with
          totalRotations := p.totalRotations + 1 } now = [] := hnil
      simp [this]
    rw [if_pos he]

/-- Witness for C2 at a concrete pool: the empty pool has no candidates and
`Get` yields the no-available-proxies error. -/
theorem C2_get_weighted_selection_witness :
    ((Pool.new defaultPoolConfig).availableProxies 7 = []) ∧
    ((Pool.new defaultPoolConfig).get 7 (1 / 2)).2 =
      Except.error "no available proxies" :=
  ⟨rfl, (C2_get_weighted_selection (Pool.new defaultPoolConfig) 7 (1 / 2)).2 rfl⟩

/-- C10.  Reporting an outcome for a proxy ID absent from the pool is a
complete no-op: the pool value is unchanged — buckets, per-proxy records and
pool-wide counters included — and no error is surfaced (the operations do
not return one). -/
theorem C10_report_unknown_id_noop (p : Pool) (id : String) (lat t1 t2 t3 : ℚ)
    (h : p.find? id = none) :
    p.reportSuccess id lat = p ∧ p.reportFailure id t1 = p ∧
    p.reportCaptcha id t2 = p ∧ p.reportBlock id t3 = p := by
  refine ⟨?_, ?_, ?_, ?_⟩
  · unfold Pool.reportSuccess
    rw [h]
  · unfold Pool.reportFailure
    rw [h]
  · unfold Pool.reportCaptcha
    rw [h]
  · unfold Pool.reportBlock
    rw [h]

/-- Witness for C10 on the empty pool and an arbitrary unknown ID. -/
theorem C10_report_unknown_id_noop_witness :
    ((Pool.new defaultPoolConfig).find? "nope" = none) ∧
    ((Pool.new defaultPoolConfig).reportSuccess "nope" 1 = Pool.new defaultPoolConfig ∧
     (Pool.new defaultPoolConfig).reportFailure "nope" 2 = Pool.new defaultPoolConfig ∧
     (Pool.new defaultPoolConfig).reportCaptcha "nope" 3 = Pool.new defaultPoolConfig ∧
     (Pool.new defaultPoolConfig).reportBlock "nope" 4 = Pool.new defaultPoolConfig) :=
  ⟨rfl, C10_report_unknown_id_noop (Pool.new defaultPoolConfig) "nope" 1 2 3 4 rfl⟩

/-- C3 (evaluation at the failing input).  With one HIGH-priority dork task
already pending, `addPageTask` at the same HIGH priority lands BEHIND it —
the pending order is `["idA", "idB"]` — although the claim (and the
source comment "Insert at front for same priority") requires the pagination
task in front, i.e. `["idB", "idA"]`: the `front` flag of
`insertByPriority` tests the same strictly-lower-priority condition in both
branches. -/
theorem C3_addPageTask_lands_behind_eval :
    (((TaskQueue.new 100 3 5).addDork "idA" "a" priorityHIGH).addPageTask
        "idB" "b" 1 priorityHIGH).pending.map PTask.id = ["idA", "idB"] ∧
    (((TaskQueue.new 100 3 5).addDork "idA" "a" priorityHIGH).addPageTask
        "idB" "b" 1 priorityHIGH).pending.map PTask.id ≠ ["idB", "idA"] := by
  constructor
  · rfl
  · decide

theorem recordResult_cc (s : SchedulerSt) (b : Bool) :
    (s.recordResult b).currentConcurrency = s.currentConcurrency := rfl

theorem handleBlocked_cc (o : SchedulerOptions) (s : SchedulerSt) (reason : String) :
    (Scheduler.handleBlocked o s reason).currentConcurrency =
      if o.adaptiveConcurrency then
        (if s.currentConcurrency > o.minConcurrency
          then max (s.currentConcurrency - 10) o.minConcurrency
          else s.currentConcurrency)
      else s.currentConcurrency := by
  unfold Scheduler.handleBlocked Scheduler.reduceConcurrency
  cases hr : (reason == "captcha") <;> cases ha : o.adaptiveConcurrency <;>
    simp [hr, ha, recordResult_cc] <;> split <;> rfl

theorem handleResult_cc (o : SchedulerOptions) (s : SchedulerSt) :
    (Scheduler.handleResult o s).currentConcurrency =
      if o.adaptiveConcurrency then
        (if (s.recordResult true).recentSuccessRate ≥ o.targetSuccessRate + 5 ∧
            s.currentConcurrency < o.maxConcurrency
          then min (s.currentConcurrency + 5) o.maxConcurrency
          else s.currentConcurrency)
      else s.currentConcurrency := by
  unfold Scheduler.handleResult Scheduler.adjustConcurrency
  cases ha : o.adaptiveConcurrency <;> simp [ha, recordResult_cc]
  split <;> rfl

theorem schedStep_cc_bounds {o : SchedulerOptions} {s : SchedulerSt}
    (hmin : o.minConcurrency ≤ s.currentConcurrency)
    (hmax : s.currentConcurrency ≤ o.maxConcurrency) (e : SchedEvent) :
    o.minConcurrency ≤ (schedStep o s e).currentConcurrency ∧
    (schedStep o s e).currentConcurrency ≤ o.maxConcurrency := by
  cases e with
  | result =>
    show o.minConcurrency ≤ (Scheduler.handleResult o s).currentConcurrency ∧
      (Scheduler.handleResult o s).currentConcurrency ≤ o.maxConcurrency
    rw [handleResult_cc]
    split
    · split
      · constructor
        · rw [min_def]
          split <;> omega
        · rw [min_def]
          split <;> omega
      · exact ⟨hmin, hmax⟩
    · exact ⟨hmin, hmax⟩
  | error => exact ⟨hmin, hmax⟩
  | blocked reason =>
    show o.minConcurrency ≤ (Scheduler.handleBlocked o s reason).currentConcurrency ∧
      (Scheduler.handleBlocked o s reason).currentConcurrency ≤ o.maxConcurrency
    rw [handleBlocked_cc]
    split
    · split
      · constructor
        · rw [max_def]
          split <;> omega
        · rw [max_def]
          split <;> omega
      · exact ⟨hmin, hmax⟩
    · exact ⟨hmin, hmax⟩

theorem schedRun_cons (o : SchedulerOptions) (s : SchedulerSt) (e : SchedEvent)
    (t : List SchedEvent) : schedRun o s (e :: t) = schedRun o (schedStep o s e) t := rfl

theorem schedRun_bounds (o : SchedulerOptions) :
    ∀ (es : List SchedEvent) (s : SchedulerSt),
      o.minConcurrency ≤ s.currentConcurrency →
      s.currentConcurrency ≤ o.maxConcurrency →
      o.minConcurrency ≤ (schedRun o s es).currentConcurrency ∧
      (schedRun o s es).currentConcurrency ≤ o.maxConcurrency := by
  intro es
  induction es with
  | nil => intro s hmin hmax; exact ⟨hmin, hmax⟩
  | cons e t ih =>
    intro s hmin hmax
    rw [schedRun_cons]
    have hstep := schedStep_cc_bounds hmin hmax e
    exact ih (schedStep o s e) hstep.1 hstep.2

/-- C8.  With the initial concurrency between the configured floor and
ceiling and adaptive concurrency on, `currentConcurrency` is in
`[minConcurrency, maxConcurrency]` after any sequence of outcomes; each
blocked (or captcha) outcome moves it to `max (c − 10) min`, and each
success outcome meeting the recent-success-rate threshold moves it to
`min (c + 5) max`. -/
theorem C8_concurrency_bounded (o : SchedulerOptions) (events : List SchedEvent)
    (h1 : o.minConcurrency ≤ o.initialConcurrency)
    (h2 : o.initialConcurrency ≤ o.maxConcurrency)
    (hadapt : o.adaptiveConcurrency = true) :
    (o.minConcurrency ≤ (schedRun o (Scheduler.resetState o) events).currentConcurrency ∧
     (schedRun o (Scheduler.resetState o) events).currentConcurrency ≤ o.maxConcurrency) ∧
    (∀ reason,
      (schedStep o (schedRun o (Scheduler.resetState o) events)
          (SchedEvent.blocked reason)).currentConcurrency =
        max ((schedRun o (Scheduler.resetState o) events).currentConcurrency - 10)
          o.minConcurrency) ∧
    (((schedRun o (Scheduler.resetState o) events).recordResult true).recentSuccessRate ≥
        o.targetSuccessRate + 5 →
      (schedStep o (schedRun o (Scheduler.resetState o) events)
          SchedEvent.result).currentConcurrency =
        min ((schedRun o (Scheduler.resetState o) events).currentConcurrency + 5)
          o.maxConcurrency) := by
  have hrun := schedRun_bounds o events (Scheduler.resetState o) h1 h2
  rcases hrun with ⟨hlo, hhi⟩
  refine ⟨⟨hlo, hhi⟩, ?_, ?_⟩
  · intro reason
    show (Scheduler.handleBlocked o (schedRun o (Scheduler.resetState o) events)
      reason).currentConcurrency = _
    rw [handleBlocked_cc]
    simp only [hadapt, if_true]
    split
    · rfl
    · rw [max_def]
      split <;> omega
  · intro hrate
    show (Scheduler.handleResult o
      (schedRun o (Scheduler.resetState o) events)).currentConcurrency = _
    rw [handleResult_cc]
    simp only [hadapt, if_true]
    by_cases hlt : (schedRun o (Scheduler.resetState o) events).currentConcurrency <
        o.maxConcurrency
    · rw [if_pos ⟨hrate, hlt⟩]
    · rw [if_neg (fun hc => hlt hc.2)]
      rw [min_def]
      split <;> omega

/-- Witness for C8 at the default options and one blocked outcome. -/
theorem C8_concurrency_bounded_witness :
    (({} : SchedulerOptions).minConcurrency ≤
      (schedRun {} (Scheduler.resetState {}) [SchedEvent.blocked "x"]).currentConcurrency ∧
     (schedRun {} (Scheduler.resetState {}) [SchedEvent.blocked "x"]).currentConcurrency ≤
      ({} : SchedulerOptions).maxConcurrency) :=
  (C8_concurrency_bounded {} [SchedEvent.blocked "x"] (by decide) (by decide) rfl).1

theorem handleBlocked_counts (o : SchedulerOptions) (s : SchedulerSt) (reason : String) :
    (Scheduler.handleBlocked o s reason).blockCount = s.blockCount + 1 ∧
    (Scheduler.handleBlocked o s reason).captchaCount =
      s.captchaCount + (if reason == "captcha" then 1 else 0) := by
  unfold Scheduler.handleBlocked Scheduler.reduceConcurrency
  cases hr : (reason == "captcha") <;> cases ha : o.adaptiveConcurrency <;>
    simp [hr, ha] <;> constructor <;> first | rfl | (split <;> rfl)

theorem handleResult_counts (o : SchedulerOptions) (s : SchedulerSt) :
    (Scheduler.handleResult o s).captchaCount = s.captchaCount ∧
    (Scheduler.handleResult o s).blockCount = s.blockCount := by
  unfold Scheduler.handleResult Scheduler.adjustConcurrency
  cases ha : o.adaptiveConcurrency <;> simp [ha] <;>
    constructor <;> first | rfl | (split <;> rfl)

theorem schedRun_captcha_le_block (o : SchedulerOptions) :
    ∀ (es : List SchedEvent) (s : SchedulerSt),
      s.captchaCount ≤ s.blockCount →
      (schedRun o s es).captchaCount ≤ (schedRun o s es).blockCount := by
  intro es
  induction es with
  | nil => intro s h; exact h
  | cons e t ih =>
    intro s h
    rw [schedRun_cons]
    refine ih (schedStep o s e) ?_
    cases e with
    | result =>
      have hc := handleResult_counts o s
      show (Scheduler.handleResult o s).captchaCount ≤ (Scheduler.handleResult o s).blockCount
      rw [hc.1, hc.2]
      exact h
    | error => exact h
    | blocked reason =>
      have hc := handleBlocked_counts o s reason
      show (Scheduler.handleBlocked o s reason).captchaCount ≤
        (Scheduler.handleBlocked o s reason).blockCount
      rw [hc.1, hc.2]
      split <;> omega

/-- C9.  A blocked outcome always increments `blockCount`; when its reason
is `captcha` it additionally increments `captchaCount` (a captcha is counted
in both); consequently, over any run from a reset state, `captchaCount`
never exceeds `blockCount`. -/
theorem C9_captcha_counted_in_blocks (o : SchedulerOptions)
    (events : List SchedEvent) (reason : String) :
    (schedStep o (schedRun o (Scheduler.resetState o) events)
        (SchedEvent.blocked reason)).blockCount =
      (schedRun o (Scheduler.resetState o) events).blockCount + 1 ∧
    (schedStep o (schedRun o (Scheduler.resetState o) events)
        (SchedEvent.blocked reason)).captchaCount =
      (schedRun o (Scheduler.resetState o) events).captchaCount +
        (if reason == "captcha" then 1 else 0) ∧
    (schedRun o (Scheduler.resetState o) events).captchaCount ≤
      (schedRun o (Scheduler.resetState o) events).blockCount := by
  have hc := handleBlocked_counts o (schedRun o (Scheduler.resetState o) events) reason
  exact ⟨hc.1, hc.2,
    schedRun_captcha_le_block o events (Scheduler.resetState o) (by exact Nat.le_refl 0)⟩

theorem query_append_self (h : String → List Nat) (bits : List Nat) (key : String) :
    (BloomFilter.query h ⟨bits ++ h key⟩ key) = true := by
  unfold BloomFilter.query
  rw [List.all_eq_true]
  intro b hb
  have : b ∈ bits ++ h key := List.mem_append_right bits (by simpa using hb)
  simpa using this

theorem query_mono_append (h : String → List Nat) (bits extra : List Nat) (k : String)
    (hq : BloomFilter.query h ⟨bits⟩ k = true) :
    BloomFilter.query h ⟨bits ++ extra⟩ k = true := by
  unfold BloomFilter.query at hq ⊢
  rw [List.all_eq_true] at hq ⊢
  intro b hb
  have := hq b hb
  have hmem : b ∈ bits := by simpa using this
  simpa using List.mem_append_left extra hmem

theorem add_opts (h : String → List Nat) (d : UrlDeduplicator) (url : String) :
    ((d.add h url).1).opts = d.opts := by
  unfold UrlDeduplicator.add
  cases d.exactSet <;> dsimp only <;> split <;> rfl

theorem add_recorded (h : String → List Nat) (d : UrlDeduplicator) (url : String) :
    keyRecorded h (d.add h url).1 (d.getKey url) := by
  unfold UrlDeduplicator.add
  cases hes : d.exactSet with
  | some es =>
    by_cases hc : es.contains (d.getKey url)
    · simp only [hc, if_true]
      unfold keyRecorded
      rw [hes]
      simpa using hc
    · simp only [hc, Bool.false_eq_true, if_false]
      unfold keyRecorded
      dsimp only
      simp
  | none =>
    by_cases hq : d.bloom.query h (d.getKey url)
    · simp only [hq, if_true]
      unfold keyRecorded
      rw [hes]
      exact hq
    · simp only [hq, Bool.false_eq_true, if_false]
      unfold keyRecorded
      dsimp only
      show BloomFilter.query h ⟨d.bloom.bits ++ h (d.getKey url)⟩ (d.getKey url) = true
      exact query_append_self h d.bloom.bits (d.getKey url)

theorem keyRecorded_add_mono (h : String → List Nat) (d : UrlDeduplicator)
    (url k : String) (hk : keyRecorded h d k) : keyRecorded h (d.add h url).1 k := by
  unfold UrlDeduplicator.add
  unfold keyRecorded at hk
  cases hes : d.exactSet with
  | some es =>
    rw [hes] at hk
    by_cases hc : es.contains (d.getKey url)
    · simp only [hc, if_true]
      unfold keyRecorded
      rw [hes]
      exact hk
    · simp only [hc, Bool.false_eq_true, if_false]
      unfold keyRecorded
      dsimp only
      exact List.mem_append_left _ hk
  | none =>
    rw [hes] at hk
    by_cases hq : d.bloom.query h (d.getKey url)
    · simp only [hq, if_true]
      unfold keyRecorded
      rw [hes]
      exact hk
    · simp only [hq, Bool.false_eq_true, if_false]
      unfold keyRecorded
      dsimp only
      show BloomFilter.query h ⟨d.bloom.bits ++ h (d.getKey url)⟩ k = true
      exact query_mono_append h d.bloom.bits _ k hk

theorem add_false_of_recorded (h : String → List Nat) (d : UrlDeduplicator)
    (url : String) (hk : keyRecorded h d (d.getKey url)) :
    d.add h url = (d, false) := by
  unfold UrlDeduplicator.add
  unfold keyRecorded at hk
  cases hes : d.exactSet with
  | some es =>
    rw [hes] at hk
    have hc : es.contains (d.getKey url) = true := by simpa using hk
    simp only [hc, if_true]
  | none =>
    rw [hes] at hk
    simp only [hk, if_true]

theorem getKey_congr {d d' : UrlDeduplicator} (hopts : d.opts = d'.opts) (url : String) :
    d.getKey url = d'.getKey url := by
  unfold UrlDeduplicator.getKey
  rw [hopts]

theorem filterOne_opts (F : DomainFns) (h : String → List Nat) (st : PipeState)
    (url : String) :
    (FilterPipeline.filterOne F h st url).1.opts = st.opts ∧
    (FilterPipeline.filterOne F h st url).1.urlDedup.opts = st.urlDedup.opts := by
  unfold FilterPipeline.filterOne
  dsimp only
  rcases hv : preDedup F st.opts url with ⟨r, dom, td⟩
  cases r with
  | some rr => exact ⟨rfl, rfl⟩
  | none =>
    dsimp only
    cases hrd : st.opts.removeDuplicates with
    | false =>
      simp only [hrd, Bool.false_eq_true, if_false]
      cases dom <;> exact ⟨rfl, rfl⟩
    | true =>
      simp only [hrd, if_true]
      rcases ha : UrlDeduplicator.add h st.urlDedup url with ⟨d2, isNew⟩
      have hopts : d2.opts = st.urlDedup.opts := by
        have := add_opts h st.urlDedup url
        rw [ha] at this
        exact this
      cases isNew with
      | true =>
        dsimp only
        cases dom <;> exact ⟨rfl, hopts⟩
      | false => exact ⟨rfl, hopts⟩

theorem filterOne_recorded_mono (F : DomainFns) (h : String → List Nat)
    (st : PipeState) (url k : String)
    (hk : keyRecorded h st.urlDedup k) :
    keyRecorded h (FilterPipeline.filterOne F h st url).1.urlDedup k := by
  unfold FilterPipeline.filterOne
  dsimp only
  rcases hv : preDedup F st.opts url with ⟨r, dom, td⟩
  cases r with
  | some rr => exact hk
  | none =>
    dsimp only
    cases hrd : st.opts.removeDuplicates with
    | false =>
      simp only [hrd, Bool.false_eq_true, if_false]
      cases dom <;> exact hk
    | true =>
      simp only [hrd, if_true]
      rcases ha : UrlDeduplicator.add h st.urlDedup url with ⟨d2, isNew⟩
      have hmono : keyRecorded h d2 k := by
        have := keyRecorded_add_mono h st.urlDedup url k hk
        rw [ha] at this
        exact this
      cases isNew with
      | true =>
        dsimp only
        cases dom <;> exact hmono
      | false => exact hmono

theorem filterOne_passed_recorded (F : DomainFns) (h : String → List Nat)
    (st : PipeState) (url : String)
    (hrd : st.opts.removeDuplicates = true)
    (hp : (FilterPipeline.filterOne F h st url).2.passed = true) :
    keyRecorded h (FilterPipeline.filterOne F h st url).1.urlDedup
      (st.urlDedup.getKey url) := by
  unfold FilterPipeline.filterOne at hp ⊢
  dsimp only at hp ⊢
  rcases hv : preDedup F st.opts url with ⟨r, dom, td⟩
  rw [hv] at hp
  cases r with
  | some rr => simp at hp
  | none =>
    dsimp only at hp ⊢
    simp only [hrd, if_true] at hp ⊢
    rcases ha : UrlDeduplicator.add h st.urlDedup url with ⟨d2, isNew⟩
    rw [ha] at hp
    have hrec : keyRecorded h d2 (st.urlDedup.getKey url) := by
      have := add_recorded h st.urlDedup url
      rw [ha] at this
      exact this
    cases isNew with
    | true =>
      dsimp only
      cases dom <;> exact hrec
    | false => simp at hp

theorem filterOne_rejects_recorded (F : DomainFns) (h : String → List Nat)
    (st : PipeState) (url : String)
    (hrd : st.opts.removeDuplicates = true)
    (hk : keyRecorded h st.urlDedup (st.urlDedup.getKey url)) :
    (FilterPipeline.filterOne F h st url).2.passed = false ∧
    ((preDedup F st.opts url).1 = none →
      (FilterPipeline.filterOne F h st url).2.reasons = ["duplicate"]) := by
  unfold FilterPipeline.filterOne
  dsimp only
  rcases hv : preDedup F st.opts url with ⟨r, dom, td⟩
  cases r with
  | some rr =>
    constructor
    · rfl
    · intro hnone
      simp at hnone
  | none =>
    dsimp only
    simp only [hrd, if_true]
    have hfalse : UrlDeduplicator.add h st.urlDedup url = (st.urlDedup, false) :=
      add_false_of_recorded h st.urlDedup url hk
    rw [hfalse]
    exact ⟨rfl, fun _ => rfl⟩

theorem pipeRun_cons (F : DomainFns) (h : String → List Nat) (st : PipeState)
    (u : String) (us : List String) :
    pipeRun F h st (u :: us) =
      ((pipeRun F h (FilterPipeline.filterOne F h st u).1 us).1,
        (FilterPipeline.filterOne F h st u).2 ::
          (pipeRun F h (FilterPipeline.filterOne F h st u).1 us).2) := rfl

theorem pipeRun_reject_after (F : DomainFns) (h : String → List Nat) :
    ∀ (urls : List String) (st : PipeState),
      st.opts.removeDuplicates = true →
      ∀ k, keyRecorded h st.urlDedup k →
      ∀ j uj rj, urls.get? j = some uj →
        (pipeRun F h st urls).2.get? j = some rj →
        st.urlDedup.getKey uj = k →
        rj.passed = false ∧
        ((preDedup F st.opts uj).1 = none → rj.reasons = ["duplicate"]) := by
  intro urls
  induction urls with
  | nil =>
    intro st _ k _ j uj rj hj
    simp at hj
  | cons u us ih =>
    intro st hrd k hk j uj rj hj hrj hkey
    rw [pipeRun_cons] at hrj
    cases j with
    | zero =>
      have hu : u = uj := by simpa using hj
      have hr : (FilterPipeline.filterOne F h st u).2 = rj := by simpa using hrj
      subst hu
      subst hr
      exact filterOne_rejects_recorded F h st u hrd (by rw [hkey]; exact hk)
    | succ j' =>
      have hj' : us.get? j' = some uj := by simpa using hj
      have hrj' : (pipeRun F h (FilterPipeline.filterOne F h st u).1 us).2.get? j'
          = some rj := by simpa using hrj
      have hopts := filterOne_opts F h st u
      have hres := ih (FilterPipeline.filterOne F h st u).1
        (by rw [hopts.1]; exact hrd) k
        (filterOne_recorded_mono F h st u k hk) j' uj rj hj' hrj'
        (by rw [getKey_congr hopts.2 uj]; exact hkey)
      refine ⟨hres.1, fun hnone => hres.2 ?_⟩
      rw [hopts.1]
      exact hnone

theorem pipeRun_pairwise (F : DomainFns) (h : String → List Nat) :
    ∀ (urls : List String) (st : PipeState),
      st.opts.removeDuplicates = true →
      ∀ i j ui uj ri rj, i < j →
        urls.get? i = some ui → urls.get? j = some uj →
        (pipeRun F h st urls).2.get? i = some ri →
        (pipeRun F h st urls).2.get? j = some rj →
        ri.passed = true →
        st.urlDedup.getKey uj = st.urlDedup.getKey ui →
        rj.passed = false ∧
        ((preDedup F st.opts uj).1 = none → rj.reasons = ["duplicate"]) := by
  intro urls
  induction urls with
  | nil =>
    intro st _ i j ui uj ri rj _ hi
    simp at hi
  | cons u us ih =>
    intro st hrd i j ui uj ri rj hij hi hj hri hrj hpass hkey
    rw [pipeRun_cons] at hri hrj
    have hopts := filterOne_opts F h st u
    cases j with
    | zero => exact absurd hij (by omega)
    | succ j' =>
      have hj' : us.get? j' = some uj := by simpa using hj
      have hrj' : (pipeRun F h (FilterPipeline.filterOne F h st u).1 us).2.get? j'
          = some rj := by simpa using hrj
      cases i with
      | zero =>
        have hu : u = ui := by simpa using hi
        have hr : (FilterPipeline.filterOne F h st u).2 = ri := by simpa using hri
        have hrec : keyRecorded h (FilterPipeline.filterOne F h st u).1.urlDedup
            (st.urlDedup.getKey u) :=
          filterOne_passed_recorded F h st u hrd (by rw [hr]; exact hpass)
        have hres := pipeRun_reject_after F h us (FilterPipeline.filterOne F h st u).1
          (by rw [hopts.1]; exact hrd) (st.urlDedup.getKey u) hrec j' uj rj hj' hrj'
          (by rw [getKey_congr hopts.2 uj, hkey, ← hu])
        refine ⟨hres.1, fun hnone => hres.2 ?_⟩
        rw [hopts.1]
        exact hnone
      | succ i' =>
        have hi' : us.get? i' = some ui := by simpa using hi
        have hri' : (pipeRun F h (FilterPipeline.filterOne F h st u).1 us).2.get? i'
            = some ri := by simpa using hri
        have hres := ih (FilterPipeline.filterOne F h st u).1
          (by rw [hopts.1]; exact hrd) i' j' ui uj ri rj (by omega) hi' hj' hri' hrj'
          hpass
          (by rw [getKey_congr hopts.2 uj, getKey_congr hopts.2 ui]; exact hkey)
        refine ⟨hres.1, fun hnone => hres.2 ?_⟩
        rw [hopts.1]
        exact hnone

/-- C4.  In any run of the filter pipeline with deduplication enabled, once
a URL passes, every later URL with the same deduplication key is rejected
rather than emitted; if the later URL survives steps 1-13, its reject
reason is exactly `duplicate`. -/
theorem C4_no_duplicate_key_emitted
    (F : DomainFns) (h : String → List Nat) (st0 : PipeState)
    (urls : List String) (i j : Nat) (ui uj : String) (ri rj : FilterResult)
    (hrd : st0.opts.removeDuplicates = true)
    (hij : i < j)
    (hui : urls.get? i = some ui) (huj : urls.get? j = some uj)
    (hri : (pipeRun F h st0 urls).2.get? i = some ri)
    (hrj : (pipeRun F h st0 urls).2.get? j = some rj)
    (hpass : ri.passed = true)
    (hkey : st0.urlDedup.getKey uj = st0.urlDedup.getKey ui) :
    rj.passed = false ∧
    ((preDedup F st0.opts uj).1 = none → rj.reasons = ["duplicate"]) :=
  pipeRun_pairwise F h urls st0 hrd i j ui uj ri rj hij hui huj hri hrj hpass hkey

/-- Witness for C4: two identical URLs through a fresh pipeline — the first
passes, the second is rejected with reason `duplicate`. -/
theorem C4_no_duplicate_key_emitted_witness :
    c4Res0.passed = true ∧ c4Res1.passed = false ∧ c4Res1.reasons = ["duplicate"] := by
  have h := C4_no_duplicate_key_emitted c4F c4h c4State ["http://a", "http://a"]
    0 1 "http://a" "http://a" c4Res0 c4Res1
    rfl (by decide) (by decide) (by decide) (by decide) (by decide) rfl rfl
  exact ⟨rfl, h.1, h.2 (by decide)⟩

set_option maxRecDepth 8000 in
/-- C5.  The normalization used for `normalized`-mode deduplication is not
idempotent: `normalizeUrl` sorts the query keys first and lowercases the
whole string afterwards, so a URL with an uppercase query key is sorted
under its uppercase key on the first pass and under its lowercase key on
the second, which moves it.  Concretely, `http://x.com/?B=1&a=2`
normalizes to `http://x.com/?b=1&a=2` (sorted as `B < a` in code-point
order, then lowercased), while normalizing the result again yields
`http://x.com/?a=2&b=1`. -/
theorem C5_normalize_not_idempotent_eval :
    UrlDedup.normalizeUrl pipelineDedupOptions "http://x.com/?B=1&a=2"
      = "http://x.com/?b=1&a=2" ∧
    UrlDedup.normalizeUrl pipelineDedupOptions "http://x.com/?b=1&a=2"
      = "http://x.com/?a=2&b=1" ∧
    UrlDedup.normalizeUrl pipelineDedupOptions
        (UrlDedup.normalizeUrl pipelineDedupOptions "http://x.com/?B=1&a=2")
      ≠ UrlDedup.normalizeUrl pipelineDedupOptions "http://x.com/?B=1&a=2" := by
  refine ⟨?_, ?_, ?_⟩ <;> decide

/-- One step of the main extraction loop either keeps the accumulated
results or appends a URL that passed the exclude-domain guard. -/
theorem parseResultsStep_inv (g : Google) (seen : List String) (pos : Nat)
    (results : List SearchResult) (rawURL : String) (r : SearchResult)
    (hr : r ∈ (parseResultsStep g (seen, pos, results) rawURL).2.2) :
    r ∈ results ∨ g.isExcludedDomain r.url = false := by
  unfold parseResultsStep at hr
  dsimp only at hr
  by_cases h1 : cleanURL rawURL = ""
  · rw [if_pos h1] at hr
    exact Or.inl hr
  · rw [if_neg h1] at hr
    by_cases h2 : seen.contains (cleanURL rawURL) = true
    · rw [if_pos h2] at hr
      exact Or.inl hr
    · rw [if_neg h2] at hr
      by_cases h3 : g.isGoogleURL (cleanURL rawURL) = true
      · rw [if_pos h3] at hr
        exact Or.inl hr
      · rw [if_neg h3] at hr
        by_cases h4 : g.isExcludedDomain (cleanURL rawURL) = true
        · rw [if_pos h4] at hr
          exact Or.inl hr
        · rw [if_neg h4] at hr
          dsimp only at hr
          rcases List.mem_append.mp hr with h | h
          · exact Or.inl h
          · right
            have hru : r = ⟨cleanURL rawURL, pos + 1⟩ := by simpa using h
            rw [hru]
            simp only [Bool.not_eq_true] at h4
            exact h4


/-- The exclude-domain guard of the main loop is preserved by the whole
fold over the raw candidates. -/
theorem parseResultsFold_inv (g : Google) :
    ∀ (raws : List String) (acc : List String × Nat × List SearchResult),
      (∀ r ∈ acc.2.2, g.isExcludedDomain r.url = false) →
      ∀ r ∈ (raws.foldl (parseResultsStep g) acc).2.2,
        g.isExcludedDomain r.url = false := by
  intro raws
  induction raws with
  | nil =>
    intro acc hacc r hr
    exact hacc r hr
  | cons x t ih =>
    intro acc hacc r hr
    rw [List.foldl_cons] at hr
    refine ih (parseResultsStep g acc x) ?_ r hr
    intro r2 hr2
    rcases acc with ⟨seen, pos, results⟩
    rcases parseResultsStep_inv g seen pos results x r2 hr2 with h | h
    · exact hacc r2 h
    · exact h

/-- Counterexample to C6 as stated: an excluded URL arriving only through
the JSON-LD path is emitted, because `parseJSONLD` filters Google-internal
hosts but never consults `isExcludedDomain`. -/
theorem C6_jsonld_bypasses_exclusion :
    c6Google.parseResultsFrom [] ["https://example.com/x"]
      = [⟨"https://example.com/x", 1⟩] ∧
    c6Google.isExcludedDomain "https://example.com/x" = true := by
  constructor
  · decide
  · decide

/-- C6 (amended).  On the four text-pattern extraction paths of
`ParseResults` — every result produced from the raw candidates, with no
JSON-LD captures — the emitted URL is never on a configured
exclude-domain entry or a `*.entry` suffix of one; the JSON-LD fallback
path does not enforce this. -/
theorem C6_pattern_paths_respect_exclusion (g : Google) (raws : List String)
    (r : SearchResult) (hr : r ∈ g.parseResultsFrom raws []) :
    g.isExcludedDomain r.url = false := by
  have hr2 : r ∈ (raws.foldl (parseResultsStep g) ([], 0, [])).2.2 := hr
  refine parseResultsFold_inv g raws ([], 0, []) ?_ r hr2
  intro r2 hr2
  exact absurd hr2 (List.not_mem_nil r2)

/-- Witness for the amended C6: a URL off the exclude list flows through
the main loop and is indeed not excluded. -/
theorem C6_pattern_paths_respect_exclusion_witness :
    (⟨"https://ok.org/y", 1⟩ : SearchResult) ∈
        c6Google.parseResultsFrom ["https://ok.org/y"] [] ∧
    c6Google.isExcludedDomain "https://ok.org/y" = false :=
  ⟨by decide, C6_pattern_paths_respect_exclusion c6Google ["https://ok.org/y"]
      ⟨"https://ok.org/y", 1⟩ (by decide)⟩

/-- Counterexample to C7 as stated: `gov.uk` is not in the
`UrlDeduplicator` table, so `foo.gov.uk` collapses to `gov.uk` instead of
staying `foo.gov.uk`; and the `DomainDeduplicator` table is shorter still
— it lacks `com.cn`, so `bar.com.cn` collapses to `com.cn`. -/
theorem C7_suffix_tables_counterexample :
    UrlDedup.extractTopDomain "foo.gov.uk" = "gov.uk" ∧
    UrlDedup.extractTopDomain "foo.gov.uk" ≠ "foo.gov.uk" ∧
    DomainDedup.extractTopDomain "bar.com.cn" = "com.cn" ∧
    DomainDedup.extractTopDomain "bar.com.cn" ≠ "bar.com.cn" := by
  refine ⟨?_, ?_, ?_, ?_⟩ <;> decide

/-- C7 (amended).  For a host of three or more labels, the
`UrlDeduplicator` derivation returns the last three labels exactly when
the last two labels form one of its twelve table entries (`gov.uk` is not
among them) and the last two labels otherwise; the `DomainDeduplicator`
derivation does the same against its five-entry table. -/
theorem C7_top_domain_tables (url domain : String) :
    (2 < (splitDots (UrlDedup.extractDomain url)).length →
      ((joinWith "." (lastN 2 (splitDots (UrlDedup.extractDomain url))) ∈
          ["co.uk", "com.au", "com.br", "co.jp", "co.kr", "co.nz", "co.za",
           "com.cn", "com.mx", "com.tw", "org.uk", "net.au"] →
        UrlDedup.extractTopDomain url
          = joinWith "." (lastN 3 (splitDots (UrlDedup.extractDomain url)))) ∧
       (joinWith "." (lastN 2 (splitDots (UrlDedup.extractDomain url))) ∉
          ["co.uk", "com.au", "com.br", "co.jp", "co.kr", "co.nz", "co.za",
           "com.cn", "com.mx", "com.tw", "org.uk", "net.au"] →
        UrlDedup.extractTopDomain url
          = joinWith "." (lastN 2 (splitDots (UrlDedup.extractDomain url)))))) ∧
    (2 < (splitDots domain).length →
      ((joinWith "." (lastN 2 (splitDots domain)) ∈
          ["co.uk", "com.au", "com.br", "co.jp", "co.kr"] →
        DomainDedup.extractTopDomain domain
          = joinWith "." (lastN 3 (splitDots domain))) ∧
       (joinWith "." (lastN 2 (splitDots domain)) ∉
          ["co.uk", "com.au", "com.br", "co.jp", "co.kr"] →
        DomainDedup.extractTopDomain domain
          = joinWith "." (lastN 2 (splitDots domain))))) := by
  constructor
  · intro hlen
    constructor
    · intro hmem
      unfold UrlDedup.extractTopDomain
      dsimp only
      rw [if_neg (by omega)]
      rw [if_pos (show urlDedupSecondLevelTlds.contains
          (joinWith "." (lastN 2 (splitDots (UrlDedup.extractDomain url)))) = true
        from List.elem_iff.mpr hmem)]
    · intro hmem
      unfold UrlDedup.extractTopDomain
      dsimp only
      rw [if_neg (by omega)]
      rw [if_neg (show ¬ urlDedupSecondLevelTlds.contains
          (joinWith "." (lastN 2 (splitDots (UrlDedup.extractDomain url)))) = true
        from fun hc => hmem (List.elem_iff.mp hc))]
  · intro hlen
    constructor
    · intro hmem
      unfold DomainDedup.extractTopDomain
      dsimp only
      rw [if_neg (by omega)]
      rw [if_pos (show domainDedupSecondLevelTlds.contains
          (joinWith "." (lastN 2 (splitDots domain))) = true
        from List.elem_iff.mpr hmem)]
    · intro hmem
      unfold DomainDedup.extractTopDomain
      dsimp only
      rw [if_neg (by omega)]
      rw [if_neg (show ¬ domainDedupSecondLevelTlds.contains
          (joinWith "." (lastN 2 (splitDots domain))) = true
        from fun hc => hmem (List.elem_iff.mp hc))]

/-- Witness for the amended C7: `a.b.co.uk` keeps three labels through the
URL-level table, `x.y.de` falls back to two through the domain-level one. -/
theorem C7_top_domain_tables_witness :
    UrlDedup.extractTopDomain "a.b.co.uk" = "b.co.uk" ∧
    DomainDedup.extractTopDomain "x.y.de" = "y.de" := by
  have h := C7_top_domain_tables "a.b.co.uk" "x.y.de"
  constructor
  · exact ((h.1 (by decide)).1 (by decide)).trans (by decide)
  · exact ((h.2 (by decide)).2 (by decide)).trans (by decide)

end DorkParser
